import Mathlib

/-!
Verification development for the Backstage CLI dependency version-bump
subsystem (`versions bump`): the Lockfile model (load / analyze / unlock /
serialize), the VersionFinder tag-vs-time resolution, the ManifestResolver
selection logic, and the BumpEngine orchestration.  The implementation
module itself is absent from the repository snapshot (only its test suite
`packages/cli/src/commands/versions/bump.test.ts` is present), so the
definitions below are modelled from the specification, with the observable
behavior pinned by the fixtures and transcripts that the test suite asserts.
All string scanning is done on `List Char` so every definition reduces in
the kernel.
-/

namespace Bump

/-- Modelled helper: split a character list on every occurrence of `c`. -/
def splitOnCharAux (c : Char) : List Char → List Char → List (List Char)
  | acc, [] => [acc.reverse]
  | acc, x :: xs =>
    if x = c then acc.reverse :: splitOnCharAux c [] xs
    else splitOnCharAux c (x :: acc) xs

/-- Split a character list on a separator character. -/
def splitOnChar (c : Char) (l : List Char) : List (List Char) :=
  splitOnCharAux c [] l

/-- Lexicographic strict order on character lists (code-point order). -/
def lexLt : List Char → List Char → Bool
  | [], [] => false
  | [], _ :: _ => true
  | _ :: _, [] => false
  | a :: as, b :: bs => if a = b then lexLt as bs else decide (a.toNat < b.toNat)

/-- Parse a character list as a decimal natural number. -/
def charsToNat? (l : List Char) : Option Nat :=
  if l = [] then none
  else if l.all (·.isDigit) then
    some (l.foldl (fun acc c => acc * 10 + (c.toNat - 48)) 0)
  else none

/-- Boolean prefix test on character lists. -/
def isPref : List Char → List Char → Bool
  | [], _ => true
  | _ :: _, [] => false
  | a :: as, b :: bs => a = b && isPref as bs

/-- String starts-with, via the character lists. -/
def startsWithS (pre s : String) : Bool := isPref pre.data s.data

/-- Drop the first `n` characters of a string. -/
def dropS (n : Nat) (s : String) : String := ⟨s.data.drop n⟩

/-- One prerelease identifier of a semver version: numeric or alphanumeric. -/
inductive PreId where
  | num (n : Nat)
  | str (s : String)
deriving DecidableEq, Repr

/-- A parsed semantic version `major.minor.patch(-pre)`. -/
structure SemVer where
  major : Nat
  minor : Nat
  patch : Nat
  pre : List PreId
deriving DecidableEq, Repr

/-- Parse one prerelease identifier: all-digit identifiers are numeric. -/
def parsePreId (l : List Char) : PreId :=
  match charsToNat? l with
  | some n => .num n
  | none => .str ⟨l⟩

/-- Modelled from the spec: parse a semver string `M.m.p` or `M.m.p-pre`
(the subset the bump subsystem feeds to `semver.parse`). -/
def parseSemVer (s : String) : Option SemVer :=
  let l := s.data
  let core := l.takeWhile (· ≠ '-')
  let rest := l.dropWhile (· ≠ '-')
  let preIds : List PreId :=
    match rest with
    | [] => []
    | _ :: p => (splitOnChar '.' p).map parsePreId
  match splitOnChar '.' core with
  | [a, b, c] =>
    match charsToNat? a, charsToNat? b, charsToNat? c with
    | some ma, some mi, some pa => some ⟨ma, mi, pa, preIds⟩
    | _, _, _ => none
  | _ => none

/-- Strict order on prerelease identifiers: numeric before alphanumeric. -/
def preIdLt : PreId → PreId → Bool
  | .num a, .num b => decide (a < b)
  | .num _, .str _ => true
  | .str _, .num _ => false
  | .str a, .str b => lexLt a.data b.data

/-- Strict order on prerelease identifier lists (a proper prefix is lower). -/
def preListLt : List PreId → List PreId → Bool
  | [], [] => false
  | [], _ :: _ => true
  | _ :: _, [] => false
  | a :: as, b :: bs => if a = b then preListLt as bs else preIdLt a b

/-- Modelled from the spec: semver strict comparison; a version carrying a
prerelease sorts below the same core version without one. -/
def semverLt (a b : SemVer) : Bool :=
  if a.major ≠ b.major then decide (a.major < b.major)
  else if a.minor ≠ b.minor then decide (a.minor < b.minor)
  else if a.patch ≠ b.patch then decide (a.patch < b.patch)
  else
    match a.pre, b.pre with
    | [], [] => false
    | [], _ :: _ => false
    | _ :: _, [] => true
    | _ :: _, _ :: _ => preListLt a.pre b.pre

/-- Modelled from the spec: node-semver range satisfaction for the range
shapes the lockfiles use (caret ranges, plus exact versions). -/
def satisfies (v : String) (range : String) : Bool :=
  if startsWithS "^" range then
    match parseSemVer v, parseSemVer (dropS 1 range) with
    | some sv, some base =>
      let upperOk :=
        if base.major ≠ 0 then sv.major == base.major
        else if base.minor ≠ 0 then sv.major == 0 && sv.minor == base.minor
        else sv.major == 0 && sv.minor == 0 && sv.patch == base.patch
      let lowerOk := ! semverLt sv base
      let preOk := sv.pre.isEmpty ||
        (sv.major == base.major && sv.minor == base.minor &&
          sv.patch == base.patch && ! base.pre.isEmpty)
      upperOk && lowerOk && preOk
    | _, _ => false
  else
    match parseSemVer v, parseSemVer range with
    | some sv, some base => sv == base
    | _, _ => v == range

/-- First-match lookup in an association list keyed by strings. -/
def lookupStr {α : Type} : List (String × α) → String → Option α
  | [], _ => none
  | (k, v) :: rest, n => if k = n then some v else lookupStr rest n

/-- One resolved entry of the lockfile, keyed by `name@range`, carrying its
resolved version and its sub-dependency ranges. -/
structure LockEntry where
  name : String
  range : String
  version : String
  deps : List (String × String)
deriving DecidableEq, Repr

/-- The in-memory lockfile model: the parsed entries in file order. -/
structure Lockfile where
  entries : List LockEntry
deriving DecidableEq, Repr

/-- The fixed two-line yarn lockfile header banner. -/
def lockfileHeader : String :=
  "# THIS IS AN AUTOGENERATED FILE. DO NOT EDIT THIS FILE DIRECTLY.\n# yarn lockfile v1\n\n"

/-- Contents of every double-quoted group on a line. -/
def quotedTokensAux : Bool → List Char → List Char → List (List Char)
  | _, _, [] => []
  | false, _, '"' :: rest => quotedTokensAux true [] rest
  | false, acc, _ :: rest => quotedTokensAux false acc rest
  | true, acc, '"' :: rest => acc.reverse :: quotedTokensAux false [] rest
  | true, acc, c :: rest => quotedTokensAux true (c :: acc) rest

/-- Contents of each `"..."` group on a lockfile line. -/
def quotedTokens (l : List Char) : List (List Char) := quotedTokensAux false [] l

/-- Split a lockfile key `name@range` at its last `@` (names are scoped and
may themselves start with `@`). -/
def splitKeyChars (l : List Char) : String × String :=
  let r := l.reverse
  let range := r.takeWhile (· ≠ '@')
  let rest := r.dropWhile (· ≠ '@')
  match rest with
  | [] => (⟨l⟩, "")
  | _ :: nameRev => (⟨nameRev.reverse⟩, ⟨range.reverse⟩)

/-- Parser state: finished entries plus the entry currently being read. -/
structure ParseSt where
  done : List LockEntry
  cur : Option LockEntry

/-- Close the entry currently being read, if any. -/
def flushCur (st : ParseSt) : List LockEntry :=
  match st.cur with
  | none => st.done
  | some e => st.done ++ [e]

/-- Does the line end with the given character? -/
def endsWithChar (c : Char) (l : List Char) : Bool :=
  match l.reverse with
  | [] => false
  | x :: _ => x = c

/-- Modelled from the spec: one step of `Lockfile.load`, reading one line of
the YAML-subset lockfile text (key headers, `version "..."` lines and
indented dependency lines; comments and blanks are skipped). -/
def parseLine (st : ParseSt) (l : List Char) : ParseSt :=
  if isPref ['"'] l && endsWithChar ':' l then
    match quotedTokens l with
    | [key] =>
      let (n, r) := splitKeyChars key
      { done := flushCur st, cur := some ⟨n, r, "", []⟩ }
    | _ => st
  else if isPref "  version ".data l then
    match st.cur, quotedTokens l with
    | some e, [v] => { st with cur := some { e with version := ⟨v⟩ } }
    | _, _ => st
  else if isPref "    \"".data l then
    match st.cur, quotedTokens l with
    | some e, [dn, dr] => { st with cur := some { e with deps := e.deps ++ [(⟨dn⟩, ⟨dr⟩)] } }
    | _, _ => st
  else st

/-- Modelled from the spec: `Lockfile.load`, parsing a lockfile text into the
mapping of `name@range` keys to entries (in file order). -/
def loadLockfile (text : String) : Lockfile :=
  ⟨flushCur ((splitOnChar '\n' text.data).foldl parseLine ⟨[], none⟩)⟩

/-- One row of the analysis: a lockfile unlock or manifest update to apply. -/
structure BumpPlan where
  name : String
  oldRange : String
  newRange : String
  oldVersion : String
  newVersion : String
deriving DecidableEq, Repr

/-- The result of `Lockfile.analyze`: entries whose range cannot accept the
target version, the distinct new versions, and the entries to unlock. -/
structure AnalyzeResult where
  invalidRanges : List BumpPlan
  newVersions : List (String × String)
  newRanges : List BumpPlan
deriving DecidableEq, Repr

/-- The plan row for an entry whose target version is `t`. -/
def toPlan (t : String) (e : LockEntry) : BumpPlan :=
  ⟨e.name, e.range, "^" ++ t, e.version, t⟩

/-- Record a distinct (name, newVersion) pair for reporting. -/
def addNewVersion (p : String × String) (l : List (String × String)) :
    List (String × String) :=
  if l.contains p then l else p :: l

/-- One entry's contribution to the analysis result. -/
def analyzeStep (target : List (String × String)) (e : LockEntry)
    (acc : AnalyzeResult) : AnalyzeResult :=
  match lookupStr target e.name with
  | none => acc
  | some t =>
    if t = e.version then acc
    else if satisfies t e.range then
      { acc with newRanges := toPlan t e :: acc.newRanges,
                 newVersions := addNewVersion (e.name, t) acc.newVersions }
    else { acc with invalidRanges := toPlan t e :: acc.invalidRanges }

/-- Modelled from the spec: `Lockfile.analyze(targetVersions)` — for every
entry whose name is targeted and whose resolved version differs from the
target, produce a `BumpPlan`; plans whose range accepts the new version go to
`newRanges` (to be unlocked), the rest flag incompatible range ceilings. -/
def Lockfile.analyze (lf : Lockfile) (target : List (String × String)) :
    AnalyzeResult :=
  lf.entries.foldr (analyzeStep target) ⟨[], [], []⟩

/-- Does the entry name a targeted package at a version other than the
target (the condition under which `analyze` emits a plan)? -/
def qualifies (target : List (String × String)) (e : LockEntry) : Bool :=
  match lookupStr target e.name with
  | some t => t != e.version
  | none => false

/-- Qualifying and the range accepts the new version. -/
def qualSat (target : List (String × String)) (e : LockEntry) : Bool :=
  match lookupStr target e.name with
  | some t => (t != e.version) && satisfies t e.range
  | none => false

/-- Qualifying but the range rejects the new version. -/
def qualUnsat (target : List (String × String)) (e : LockEntry) : Bool :=
  match lookupStr target e.name with
  | some t => (t != e.version) && ! satisfies t e.range
  | none => false

/-- Does the entry's range accept its target (when one exists)? -/
def satB (T : List (String × String)) (e : LockEntry) : Bool :=
  satisfies ((lookupStr T e.name).getD "") e.range

/-- The plan row `analyze` emits for an entry, as a function of the entry. -/
def planOfEntry (target : List (String × String)) (e : LockEntry) : BumpPlan :=
  toPlan ((lookupStr target e.name).getD "") e

/-- All plan rows of an analysis result. -/
def allPlans (r : AnalyzeResult) : List BumpPlan :=
  r.invalidRanges ++ r.newRanges

/-- Does the plan row address this entry's `name@range` key? -/
def planMatches (p : BumpPlan) (e : LockEntry) : Bool :=
  p.name == e.name && p.oldRange == e.range

/-- Modelled from the spec: applying the unlocks — each entry scheduled in
`newRanges` is dropped from the lockfile so the next install resolves its
range afresh at the new version (the fixtures `lockfileMock` to
`lockfileMockResult` pin this observable behavior). -/
def removeEntries (entries : List LockEntry) (plans : List BumpPlan) :
    List LockEntry :=
  entries.filter (fun e => ! plans.any (fun p => planMatches p e))

/-- The serialization key of an entry. -/
def entryKey (e : LockEntry) : String := e.name ++ "@" ++ e.range

/-- Serialization order: lexicographically non-decreasing lockfile keys. -/
def keyLe (a b : LockEntry) : Prop :=
  lexLt (entryKey b).data (entryKey a).data = false

instance : DecidableRel keyLe := fun a b => by
  unfold keyLe
  infer_instance

/-- The entries in serialization order (sorted lexicographically by key). -/
def serializedEntries (lf : Lockfile) : List LockEntry :=
  List.insertionSort keyLe lf.entries

/-- Render one entry's dependency block. -/
def renderDeps (deps : List (String × String)) : String :=
  String.join (deps.map (fun d => "\n    \"" ++ d.1 ++ "\" \"" ++ d.2 ++ "\""))

/-- Render one lockfile entry. -/
def renderEntry (e : LockEntry) : String :=
  "\"" ++ entryKey e ++ "\":\n  version \"" ++ e.version ++ "\"" ++
    (if e.deps.isEmpty then "" else "\n  dependencies:" ++ renderDeps e.deps)

/-- Join non-empty blocks with a separator. -/
def joinSep (sep : String) : List String → String
  | [] => ""
  | [x] => x
  | x :: xs => x ++ sep ++ joinSep sep xs

/-- Modelled from the spec: `Lockfile.toString` — the header banner verbatim,
then the entries sorted lexicographically by lockfile key. -/
def Lockfile.toText (lf : Lockfile) : String :=
  lockfileHeader ++ "\n" ++ joinSep "\n\n" ((serializedEntries lf).map renderEntry) ++ "\n"

/-- The package-info document returned by the registry for one package:
its dist-tags and the publish timestamp of each version (ISO 8601 UTC
strings, which compare chronologically as text). -/
structure PkgInfo where
  distTags : List (String × String)
  time : List (String × String)
deriving DecidableEq, Repr

/-- Chronological comparison of two ISO 8601 UTC timestamps. -/
def timeLt (a b : String) : Bool := lexLt a.data b.data

/-- Modelled from the spec: `createVersionFinder`'s resolution for one
package, given the release-line tag and the fetched package info.  `latest`
and `main` return the `latest` dist-tag (failing when it is absent); any
other tag compares the publish times of `latest` and the tagged version and
returns the later one, ties favoring `latest`; a tag absent from the
dist-tags falls back to `latest` (pinned by the test at bump.test.ts:976-980).
Error messages elide the quote marks of the originals. -/
def findVersion (line : String) (name : String) (info : PkgInfo) :
    Except String String :=
  let distTag := if line = "main" then "latest" else line
  match lookupStr info.distTags "latest" with
  | none => .error ("No target latest version found for " ++ name)
  | some latestVersion =>
    if distTag = "latest" then .ok latestVersion
    else
      match lookupStr info.distTags distTag with
      | none => .ok latestVersion
      | some tagged =>
        match lookupStr info.time latestVersion with
        | none => .error ("No time available for version " ++ latestVersion ++ " of " ++ name)
        | some latestTime =>
          match lookupStr info.time tagged with
          | none => .error ("No time available for version " ++ tagged ++ " of " ++ name)
          | some taggedTime =>
            .ok (if timeLt latestTime taggedTime then tagged else latestVersion)

/-- A release manifest: an optional release version plus explicit
package-version overrides. -/
structure ReleaseManifest where
  releaseVersion : Option String
  packages : List (String × String)
deriving DecidableEq, Repr

/-- A registry lookup failure: a missing package (recoverable) or any other
error (fatal). -/
inductive FetchErr where
  | notFound
  | other (msg : String)
deriving DecidableEq, Repr

/-- The external collaborators of one run: the package registry and the
release-manifest service (tag and explicit-version lookups; `none` models a
404 response). -/
structure Env where
  registry : String → Except FetchErr PkgInfo
  manifestByTag : String → Option ReleaseManifest
  manifestByVersion : String → Option ReleaseManifest

/-- The options of one `versions bump` invocation. -/
structure BumpOptions where
  pattern : Option String
  release : String
  skipInstall : Bool

/-- One workspace package: its name and its dependency mapping. -/
structure WsPackage where
  pkgName : String
  deps : List (String × String)
deriving DecidableEq, Repr

/-- The files the run may read and write: the lockfile, the workspace
package manifests, and the `backstage.json` project-version record. -/
structure FsState where
  lockfile : Lockfile
  packages : List WsPackage
  backstageJson : Option String
deriving DecidableEq, Repr

/-- Is the requested release an explicit semver version (as opposed to a
symbolic release-line tag)? -/
def isExplicitVersion (s : String) : Bool := (parseSemVer s).isSome

/-- Modelled from the spec: when the "next" line is requested, both the
"next" and "main" manifests are fetched and the one with the higher
`releaseVersion` (by semver compare) becomes effective. -/
def pickManifest (n m : ReleaseManifest) : ReleaseManifest :=
  match n.releaseVersion, m.releaseVersion with
  | some vn, some vm =>
    match parseSemVer vn, parseSemVer vm with
    | some sn, some sm => if semverLt sn sm then m else n
    | _, _ => n
  | none, some _ => m
  | _, _ => n

/-- Modelled from the spec: resolve the effective release manifest.  An
explicit version uses the releases endpoint and a 404 there is fatal
("No release found for `<version>` version"); the "next" tag additionally
fetches "main" and picks the higher `releaseVersion`; any other tag uses the
tags endpoint. -/
def resolveManifest (release : String) (env : Env) :
    Except String (Option ReleaseManifest) :=
  if isExplicitVersion release then
    match env.manifestByVersion release with
    | some m => .ok (some m)
    | none => .error ("No release found for " ++ release ++ " version")
  else if release = "next" then
    match env.manifestByTag "next", env.manifestByTag "main" with
    | some n, some m => .ok (some (pickManifest n m))
    | some n, none => .ok (some n)
    | none, some m => .ok (some m)
    | none, none => .ok none
  else .ok (env.manifestByTag release)

/-- The override mapping of an optional manifest. -/
def manifestPackages (mani : Option ReleaseManifest) : List (String × String) :=
  match mani with
  | none => []
  | some m => m.packages

/-- A per-package resolution failure: recoverable (package dropped) or
fatal (aborts the run). -/
inductive FindErr where
  | notFound
  | fatal (msg : String)
deriving DecidableEq, Repr

/-- Modelled from the spec: the target version of one matched name — the
manifest override when one exists, otherwise the version finder against the
registry; a registry `NotFoundError` is recoverable, every other failure is
fatal. -/
def resolveTarget (mani : Option ReleaseManifest) (line : String)
    (reg : String → Except FetchErr PkgInfo) (n : String) :
    Except FindErr String :=
  match lookupStr (manifestPackages mani) n with
  | some v => .ok v
  | none =>
    match reg n with
    | .error .notFound => .error .notFound
    | .error (.other msg) => .error (.fatal msg)
    | .ok info =>
      match findVersion line n info with
      | .ok v => .ok v
      | .error msg => .error (.fatal msg)

/-- The "Checking for updates of ..." progress line. -/
def checkLog (n : String) : String := "Checking for updates of " ++ n

/-- The non-fatal per-package drop notice. -/
def ignoreLog (n : String) : String :=
  "Package info not found, ignoring package " ++ n

/-- Resolve a batch of names in order: recoverable misses are dropped with a
notice, the first fatal failure aborts. -/
def resolveLoop (f : String → Except FindErr String) :
    List String → Except String (List (String × String) × List String)
  | [] => .ok ([], [])
  | n :: ns =>
    match f n with
    | .ok v => (resolveLoop f ns).map (fun r => ((n, v) :: r.1, r.2))
    | .error .notFound => (resolveLoop f ns).map (fun r => (r.1, ignoreLog n :: r.2))
    | .error (.fatal msg) => .error msg

/-- Modelled from the spec: one checking pass — every name gets a
"Checking for updates" line, then the drop notices of the names whose
registry lookup missed. -/
def resolveNames (f : String → Except FindErr String) (names : List String) :
    Except String (List (String × String) × List String) :=
  (resolveLoop f names).map (fun r => (r.1, names.map checkLog ++ r.2))

/-- Keep the first occurrence of every name. -/
def dedupAux : List String → List String → List String
  | _, [] => []
  | seen, x :: xs =>
    if x ∈ seen then dedupAux seen xs else x :: dedupAux (x :: seen) xs

/-- The distinct members of a name list, in first-occurrence order. -/
def dedup (l : List String) : List String := dedupAux [] l

/-- The built-in default scope glob. -/
def defaultGlob : String := "@backstage/*"

/-- Modelled from the spec: name-glob matching for the pattern shapes the
command accepts — a literal prefix followed by `*`, or a literal name. -/
def globMatch (pat : String) (n : String) : Bool :=
  match splitOnChar '*' pat.data with
  | [p, []] => isPref p n.data
  | [p] => n.data = p
  | _ => false

/-- The active pattern of a run. -/
def patOf (opts : BumpOptions) : String := opts.pattern.getD defaultGlob

/-- The pattern announcement line. -/
def patLog (opts : BumpOptions) : String :=
  match opts.pattern with
  | none => "Using default pattern glob " ++ defaultGlob
  | some p => "Using custom pattern glob " ++ p

/-- Modelled from the spec: the glob-matched distinct dependency names
declared across the workspace manifests, in discovery order. -/
def wsDepNames (pkgs : List WsPackage) (pat : String) : List String :=
  dedup ((pkgs.flatMap (fun p => p.deps.map Prod.fst)).filter (globMatch pat))

/-- Modelled from the spec: the transitive working set — glob-matched names
that appear in the lockfile but were not already resolved by the workspace
pass. -/
def phase2Names (lf : Lockfile) (pat : String)
    (t1 : List (String × String)) : List String :=
  (dedup (lf.entries.map (·.name))).filter
    (fun n => globMatch pat n && ! (t1.map Prod.fst).contains n)

/-- The extra "Checking for updates" lines of the manifest-driven recheck of
overrides that are also workspace dependencies. -/
def recheckLogs (mani : Option ReleaseManifest) (wsNames : List String) :
    List String :=
  ((manifestPackages mani).filter (fun p => wsNames.contains p.1)).map
    (fun p => checkLog p.1)

/-- Everything the engine decides before touching any file. -/
structure PlanData where
  mani : Option ReleaseManifest
  targets : List (String × String)
  checkLogs : List String
  ares : AnalyzeResult
  bumps : List (String × String × String × String)

/-- Modelled from the spec: the manifest-field updates — for every workspace
package and matched dependency whose declared range is not already the caret
of the target version, rewrite it to `^<newVersion>`.  Rows are
(packageName, depName, oldRange, newRange). -/
def computeBumps (pkgs : List WsPackage) (target : List (String × String)) :
    List (String × String × String × String) :=
  pkgs.flatMap (fun p =>
    p.deps.filterMap (fun d =>
      match lookupStr target d.1 with
      | some t => if d.2 = "^" ++ t then none else some (p.pkgName, d.1, d.2, "^" ++ t)
      | none => none))

/-- Rewrite every targeted dependency range to the caret of its target. -/
def applyBumps (pkgs : List WsPackage) (target : List (String × String)) :
    List WsPackage :=
  pkgs.map (fun p =>
    { p with deps := p.deps.map (fun d =>
        match lookupStr target d.1 with
        | some t => (d.1, "^" ++ t)
        | none => d) })

/-- Modelled from the spec: the whole pre-write decision of a run — resolve
the manifest, resolve targets for the workspace pass and the transitive
lockfile pass, analyze the lockfile, and compute the manifest updates. -/
def planOf (opts : BumpOptions) (env : Env) (fs : FsState) :
    Except String PlanData :=
  match resolveManifest opts.release env with
  | .error e => .error e
  | .ok mani =>
    match resolveNames (resolveTarget mani opts.release env.registry)
        (wsDepNames fs.packages (patOf opts)) with
    | .error e => .error e
    | .ok (t1, l1) =>
      match resolveNames (resolveTarget mani opts.release env.registry)
          (phase2Names fs.lockfile (patOf opts) t1) with
      | .error e => .error e
      | .ok (t2, l2) =>
        .ok { mani := mani,
              targets := t1 ++ t2,
              checkLogs := l1 ++ recheckLogs mani (wsDepNames fs.packages (patOf opts)) ++ l2,
              ares := fs.lockfile.analyze (t1 ++ t2),
              bumps := computeBumps fs.packages (t1 ++ t2) }

/-- The base version a declared range installs from (the caret stripped). -/
def rangeBase (r : String) : String :=
  if startsWithS "^" r then dropS 1 r else r

/-- Keep the first row per dependency name. -/
def dedupByFstAux : List String → List (String × String × String) →
    List (String × String × String)
  | _, [] => []
  | seen, c :: cs =>
    if c.1 ∈ seen then dedupByFstAux seen cs
    else c :: dedupByFstAux (c.1 :: seen) cs

/-- Modelled from the spec: the breaking-change candidates — every bumped
dependency whose target version increases the semver major component over
the declared range's base version, one row (name, oldVersion, newVersion)
per name. -/
def breakingOf (bumps : List (String × String × String × String)) :
    List (String × String × String) :=
  dedupByFstAux [] (bumps.filterMap (fun b =>
    match parseSemVer (rangeBase b.2.2.1), parseSemVer (dropS 1 b.2.2.2) with
    | some o, some n2 =>
      if o.major < n2.major then some (b.2.1, rangeBase b.2.2.1, dropS 1 b.2.2.2)
      else none
    | _, _ => none))

/-- The changelog link printed under a breaking-change row, known only for
packages of the project's own scope (pinned by the custom-pattern test,
where `@backstage-extra/custom-two` gets no link). -/
def changelogUrl (n : String) : Option String :=
  if startsWithS "@backstage/" n then
    some ("    https://github.com/backstage/backstage/blob/master/packages/"
      ++ dropS 11 n ++ "/CHANGELOG.md")
  else none

/-- The breaking-change row for one candidate. -/
def breakRow (c : String × String × String) : String :=
  "  " ++ c.1 ++ " : " ++ c.2.1 ++ " ~> " ++ c.2.2

/-- Modelled from the spec: the end-of-run breaking-change summary lines. -/
def breakLines (cands : List (String × String × String)) : List String :=
  if cands.isEmpty then []
  else
    "⚠️  The following packages may have breaking changes:" ::
      cands.flatMap (fun c =>
        breakRow c ::
          (match changelogUrl c.1 with
           | some u => [u]
           | none => []))

/-- Modelled from the spec: `bumpBackstageJsonVersion` — with the default
pattern and a manifest `releaseVersion`, write the project-version record,
logging an upgrade notice (with the diff-helper link) or a first-time
notice; a custom pattern skips the write. -/
def backstageStep (pattern : Option String) (mani : Option ReleaseManifest)
    (bj : Option String) : List String × Option String :=
  match mani with
  | none => ([], bj)
  | some m =>
    match m.releaseVersion with
    | none => ([], bj)
    | some rv =>
      match pattern with
      | some _ => (["Skipping backstage.json update as custom pattern is used"], bj)
      | none =>
        match bj with
        | some old =>
          (["Upgraded from release " ++ old ++ " to " ++ rv ++ ", please review these template changes:",
            "  https://backstage.github.io/upgrade-helper/?from=" ++ old ++ "&to=" ++ rv],
           some rv)
        | none =>
          (["Your project is now at version " ++ rv ++ ", which has been written to backstage.json"],
           some rv)

/-- The "unlocking" progress lines, in discovery order. -/
def unlockLogs (plans : List BumpPlan) : List String :=
  plans.map (fun p => "unlocking " ++ p.name ++ "@" ++ p.oldRange ++ " ~> " ++ p.newVersion)

/-- The "bumping" progress lines, per workspace package and dependency. -/
def bumpLogs (bumps : List (String × String × String × String)) : List String :=
  bumps.map (fun b => "bumping " ++ b.2.1 ++ " in " ++ b.1 ++ " to " ++ b.2.2.2)

/-- The observable outcome of one run: the fatal error if any, the final
file state, the log transcript, and whether the install step ran. -/
structure RunOutcome where
  err? : Option String
  fs : FsState
  logs : List String
  installRan : Bool
deriving DecidableEq, Repr

/-- Modelled from the spec: the whole `bump` run.  A manifest failure or a
fatal resolution failure aborts before any write; when nothing is outdated
the run logs "All Backstage packages are up to date!" and writes nothing;
otherwise the scheduled entries are unlocked out of the lockfile, every
matched manifest range is rewritten, `backstage.json` is updated under the
default pattern, the install step runs unless skipped, and the
breaking-change summary is printed. -/
def runBump (opts : BumpOptions) (env : Env) (fs : FsState) : RunOutcome :=
  match planOf opts env fs with
  | .error e => ⟨some e, fs, [patLog opts], false⟩
  | .ok pd =>
    if pd.bumps.isEmpty && pd.ares.newRanges.isEmpty then
      ⟨none, fs,
        patLog opts :: pd.checkLogs ++ ["All Backstage packages are up to date!"],
        false⟩
    else
      let lf : Lockfile := ⟨removeEntries fs.lockfile.entries pd.ares.newRanges⟩
      let pkgs := applyBumps fs.packages pd.targets
      let bj := backstageStep opts.pattern pd.mani fs.backstageJson
      let installLog :=
        if opts.skipInstall then "Skipping yarn install"
        else "Running yarn install to install new versions"
      ⟨none, ⟨lf, pkgs, bj.2⟩,
        patLog opts :: pd.checkLogs ++ ["Some packages are outdated, updating"]
          ++ unlockLogs pd.ares.newRanges ++ bumpLogs pd.bumps ++ bj.1
          ++ [installLog] ++ breakLines (breakingOf pd.bumps)
          ++ ["Version bump complete!"],
        ! opts.skipInstall⟩

/-- The effective release manifest of a run, a 404 collapsed to `none`. -/
def maniOf (opts : BumpOptions) (env : Env) : Option ReleaseManifest :=
  match resolveManifest opts.release env with
  | .ok m => m
  | .error _ => none

/-- The resolved target-version mapping of a run (empty if the run aborts
before resolving). -/
def runTargets (opts : BumpOptions) (env : Env) (fs : FsState) :
    List (String × String) :=
  match planOf opts env fs with
  | .ok pd => pd.targets
  | .error _ => []

/-- The breaking-change candidates of a run. -/
def runBreaking (opts : BumpOptions) (env : Env) (fs : FsState) :
    List (String × String × String) :=
  match planOf opts env fs with
  | .ok pd => breakingOf pd.bumps
  | .error _ => []

/-- The lockfile fixture of the test suite (`lockfileMock`). -/
def lockfileMock : String :=
  lockfileHeader ++ "\n\"@backstage/core@^1.0.5\":\n  version \"1.0.6\"\n  dependencies:\n    \"@backstage/core-api\" \"^1.0.6\"\n\n\"@backstage/core@^1.0.3\":\n  version \"1.0.3\"\n  dependencies:\n    \"@backstage/core-api\" \"^1.0.3\"\n\n\"@backstage/theme@^1.0.0\":\n  version \"1.0.0\"\n\n\"@backstage/core-api@^1.0.6\":\n  version \"1.0.6\"\n\n\"@backstage/core-api@^1.0.3\":\n  version \"1.0.3\"\n"

/-- The unlocked lockfile the test suite expects (`lockfileMockResult`). -/
def lockfileMockResult : String :=
  lockfileHeader ++ "\n\"@backstage/core@^1.0.5\":\n  version \"1.0.6\"\n  dependencies:\n    \"@backstage/core-api\" \"^1.0.6\"\n\n\"@backstage/theme@^1.0.0\":\n  version \"1.0.0\"\n"

/-- The parsed form of `lockfileMock`. -/
def fixLockfile : Lockfile := ⟨[
  ⟨"@backstage/core", "^1.0.5", "1.0.6", [("@backstage/core-api", "^1.0.6")]⟩,
  ⟨"@backstage/core", "^1.0.3", "1.0.3", [("@backstage/core-api", "^1.0.3")]⟩,
  ⟨"@backstage/theme", "^1.0.0", "1.0.0", []⟩,
  ⟨"@backstage/core-api", "^1.0.6", "1.0.6", []⟩,
  ⟨"@backstage/core-api", "^1.0.3", "1.0.3", []⟩]⟩

/-- The two workspace packages of the test fixtures. -/
def fixPackages : List WsPackage := [
  ⟨"a", [("@backstage/core", "^1.0.5")]⟩,
  ⟨"b", [("@backstage/core", "^1.0.3"), ("@backstage/theme", "^1.0.0")]⟩]

/-- The registry versions the test fixtures publish. -/
def fixRegistry (n : String) : Except FetchErr PkgInfo :=
  if n = "@backstage/core" then .ok ⟨[("latest", "1.0.6")], []⟩
  else if n = "@backstage/core-api" then .ok ⟨[("latest", "1.0.7")], []⟩
  else if n = "@backstage/theme" then .ok ⟨[("latest", "2.0.0")], []⟩
  else .error .notFound

/-- The environment of the first bump test: the fixture registry and an
empty "main" tag manifest. -/
def fixEnv : Env :=
  ⟨fixRegistry, fun t => if t = "main" then some ⟨none, []⟩ else none, fun _ => none⟩

/-- The file state of the first bump test. -/
def fixFs : FsState := ⟨fixLockfile, fixPackages, none⟩

/-- The options of the first bump test (default pattern, release "main"). -/
def fixOpts : BumpOptions := ⟨none, "main", false⟩

/-- A registry in which every lookup misses. -/
def noneRegistry (_ : String) : Except FetchErr PkgInfo := .error .notFound

/-- An environment in which every package lookup misses and the "main"
manifest is empty (the "should ignore not found packages" test). -/
def notFoundEnv : Env :=
  ⟨noneRegistry, fun t => if t = "main" then some ⟨none, []⟩ else none, fun _ => none⟩

/-- An environment whose release-manifest service has no release at all
(explicit version lookups 404). -/
def no404Env : Env := ⟨fixRegistry, fun _ => none, fun _ => none⟩

/-- A one-package workspace pinned at the registry's current version, used
to isolate the effect of a single manifest override. -/
def quietFs : FsState :=
  ⟨⟨[⟨"@backstage/core", "^1.0.6", "1.0.6", [("@backstage/core-api", "^1.0.6")]⟩,
     ⟨"@backstage/core-api", "^1.0.6", "1.0.6", []⟩]⟩,
   [⟨"a", [("@backstage/core", "^1.0.6")]⟩], none⟩

/-- A registry publishing 1.0.6 for both fixture packages. -/
def quietRegistry (n : String) : Except FetchErr PkgInfo :=
  if n = "@backstage/core" then .ok ⟨[("latest", "1.0.6")], []⟩
  else if n = "@backstage/core-api" then .ok ⟨[("latest", "1.0.6")], []⟩
  else .error .notFound

/-- The quiet environment without any manifest override. -/
def quietEnv : Env :=
  ⟨quietRegistry, fun t => if t = "main" then some ⟨none, []⟩ else none, fun _ => none⟩

/-- The quiet environment, plus a manifest override for
`@backstage/core-api` — a name that appears in no workspace manifest's
dependency fields (only in the lockfile). -/
def overrideEnv : Env :=
  ⟨quietRegistry,
   fun t => if t = "main" then some ⟨none, [("@backstage/core-api", "1.0.7")]⟩ else none,
   fun _ => none⟩

/-- A workspace whose only matched dependency is outside the @backstage
scope, with a major-version jump upstream. -/
def acmeFs : FsState :=
  ⟨⟨[⟨"@acme/pkg", "^1.0.0", "1.0.0", []⟩]⟩,
   [⟨"a", [("@acme/pkg", "^1.0.0")]⟩], none⟩

/-- The registry for the @acme fixture: 2.0.0 is out. -/
def acmeEnv : Env :=
  ⟨fun n => if n = "@acme/pkg" then .ok ⟨[("latest", "2.0.0")], []⟩ else .error .notFound,
   fun t => if t = "main" then some ⟨none, []⟩ else none, fun _ => none⟩

/-- Options selecting the @acme scope with a custom pattern. -/
def acmeOpts : BumpOptions := ⟨some "@acme/*", "main", false⟩

/-- The target-version mapping the first bump test resolves. -/
def fixTargets : List (String × String) :=
  [("@backstage/core", "1.0.6"), ("@backstage/theme", "2.0.0"),
   ("@backstage/core-api", "1.0.7")]

/-- The "next" tag manifest of the manifest-selection test. -/
def nextMani : ReleaseManifest :=
  ⟨some "1.0.0-next.1",
   [("@backstage/theme", "4.0.0"), ("@backstage/create-app", "2.0.0")]⟩

/-- The "main" tag manifest of the manifest-selection test. -/
def mainMani : ReleaseManifest :=
  ⟨some "1.0.0",
   [("@backstage/theme", "5.0.0"), ("@backstage/create-app", "3.0.0")]⟩

/-- The environment of the manifest-selection test: both release-line tags
carry manifests. -/
def nextEnv : Env :=
  ⟨fixRegistry,
   fun t => if t = "next" then some nextMani
     else if t = "main" then some mainMani else none,
   fun _ => none⟩

/-- Options requesting the explicit unknown release of the fatal-path test. -/
def c5Opts : BumpOptions := ⟨none, "999.0.1", false⟩

/-- A one-package workspace with an empty lockfile, used to witness the
per-package NotFound recovery. -/
def c9Fs : FsState := ⟨⟨[]⟩, [⟨"a", [("@backstage/core", "^1.0.5")]⟩], none⟩

/-- The quiet environment plus an override for a name that appears neither
in any workspace manifest nor in the lockfile. -/
def zzzEnv : Env :=
  ⟨quietRegistry,
   fun t => if t = "main" then some ⟨none, [("@backstage/zzz", "9.9.9")]⟩ else none,
   fun _ => none⟩

/-- Association lookup distributes over append, first list first. -/
theorem lookupStr_append {α : Type} (a b : List (String × α)) (n : String) :
    lookupStr (a ++ b) n =
      (match lookupStr a n with
       | some v => some v
       | none => lookupStr b n) := by
  induction a with
  | nil => simp [lookupStr]
  | cons p rest ih =>
    obtain ⟨k, v⟩ := p
    by_cases h : k = n
    · simp [lookupStr, h]
    · simp [lookupStr, h, ih]

/-- A successful lookup names an actual pair of the list. -/
theorem lookupStr_some_mem {α : Type} {l : List (String × α)} {n : String}
    {v : α} (h : lookupStr l n = some v) : (n, v) ∈ l := by
  induction l with
  | nil => simp [lookupStr] at h
  | cons p rest ih =>
    obtain ⟨k, w⟩ := p
    by_cases hk : k = n
    · subst hk
      simp [lookupStr] at h
      simp [h]
    · simp [lookupStr, hk] at h
      exact List.mem_cons_of_mem _ (ih h)

/-- A present key is found by lookup. -/
theorem mem_lookupStr_isSome {α : Type} {l : List (String × α)} {n : String}
    {v : α} (h : (n, v) ∈ l) : ∃ w, lookupStr l n = some w := by
  induction l with
  | nil => simp at h
  | cons p rest ih =>
    obtain ⟨k, w⟩ := p
    by_cases hk : k = n
    · exact ⟨w, by simp [lookupStr, hk]⟩
    · rcases List.mem_cons.mp h with h1 | h1
      · cases h1
        simp at hk
      · simpa [lookupStr, hk] using ih h1

/-- One analysis step's effect on the unlock list. -/
theorem analyzeStep_newRanges (T : List (String × String)) (e : LockEntry)
    (acc : AnalyzeResult) :
    (analyzeStep T e acc).newRanges
      = if qualSat T e then planOfEntry T e :: acc.newRanges
        else acc.newRanges := by
  unfold analyzeStep qualSat planOfEntry
  cases h : lookupStr T e.name with
  | none => simp
  | some t =>
    by_cases hv : t = e.version
    · simp [hv]
    · by_cases hs : satisfies t e.range
      · simp [hv, hs, toPlan, Ne.symm hv]
      · simp [hv, hs]

/-- One analysis step's effect on the invalid-range list. -/
theorem analyzeStep_invalidRanges (T : List (String × String)) (e : LockEntry)
    (acc : AnalyzeResult) :
    (analyzeStep T e acc).invalidRanges
      = if qualUnsat T e then planOfEntry T e :: acc.invalidRanges
        else acc.invalidRanges := by
  unfold analyzeStep qualUnsat planOfEntry
  cases h : lookupStr T e.name with
  | none => simp
  | some t =>
    by_cases hv : t = e.version
    · simp [hv]
    · by_cases hs : satisfies t e.range
      · simp [hv, hs]
      · simp [hv, hs, toPlan, Ne.symm hv]

/-- What `analyze` folds into `newRanges`: exactly the qualifying entries
whose range accepts the target. -/
theorem foldr_newRanges (T : List (String × String)) (es : List LockEntry) :
    (es.foldr (analyzeStep T) ⟨[], [], []⟩).newRanges
      = (es.filter (qualSat T)).map (planOfEntry T) := by
  induction es with
  | nil => rfl
  | cons e rest ih =>
    rw [List.foldr_cons, analyzeStep_newRanges, List.filter_cons]
    by_cases h : qualSat T e
    · simp [h, ih]
    · simp [h, ih]

/-- What `analyze` folds into `invalidRanges`: exactly the qualifying
entries whose range rejects the target. -/
theorem foldr_invalidRanges (T : List (String × String)) (es : List LockEntry) :
    (es.foldr (analyzeStep T) ⟨[], [], []⟩).invalidRanges
      = (es.filter (qualUnsat T)).map (planOfEntry T) := by
  induction es with
  | nil => rfl
  | cons e rest ih =>
    rw [List.foldr_cons, analyzeStep_invalidRanges, List.filter_cons]
    by_cases h : qualUnsat T e
    · simp [h, ih]
    · simp [h, ih]

/-- `analyze`'s unlock list, as a filter of the entries. -/
theorem analyze_newRanges (lf : Lockfile) (T : List (String × String)) :
    (lf.analyze T).newRanges
      = (lf.entries.filter (qualSat T)).map (planOfEntry T) :=
  foldr_newRanges T lf.entries

/-- `analyze`'s invalid-range list, as a filter of the entries. -/
theorem analyze_invalidRanges (lf : Lockfile) (T : List (String × String)) :
    (lf.analyze T).invalidRanges
      = (lf.entries.filter (qualUnsat T)).map (planOfEntry T) :=
  foldr_invalidRanges T lf.entries

/-- `qualSat` factors through `qualifies`. -/
theorem qualSat_eq (T : List (String × String)) (e : LockEntry) :
    qualSat T e = (qualifies T e && satB T e) := by
  unfold qualSat qualifies satB
  cases h : lookupStr T e.name <;> simp [h]

/-- `qualUnsat` factors through `qualifies`. -/
theorem qualUnsat_eq (T : List (String × String)) (e : LockEntry) :
    qualUnsat T e = (qualifies T e && ! satB T e) := by
  unfold qualUnsat qualifies satB
  cases h : lookupStr T e.name <;> simp [h]

/-- The two plan lists of `analyze` together are a permutation of one plan
row per qualifying entry. -/
theorem allPlans_perm (lf : Lockfile) (T : List (String × String)) :
    (allPlans (lf.analyze T)).Perm
      ((lf.entries.filter (qualifies T)).map (planOfEntry T)) := by
  unfold allPlans
  rw [analyze_newRanges, analyze_invalidRanges]
  rw [← List.map_append]
  apply List.Perm.map
  have h1 : lf.entries.filter (qualUnsat T)
      = (lf.entries.filter (qualifies T)).filter (fun e => ! satB T e) := by
    rw [List.filter_filter]
    exact List.filter_congr (fun e _ => by
      rw [qualUnsat_eq, Bool.and_comm])
  have h2 : lf.entries.filter (qualSat T)
      = (lf.entries.filter (qualifies T)).filter (fun e => satB T e) := by
    rw [List.filter_filter]
    exact List.filter_congr (fun e _ => by
      rw [qualSat_eq, Bool.and_comm])
  rw [h1, h2]
  exact List.Perm.trans List.perm_append_comm
    (List.filter_append_perm (fun e => satB T e) (lf.entries.filter (qualifies T)))

/-- Every plan row `analyze` emits records an actual version change. -/
theorem allPlans_oldVersion_ne (lf : Lockfile) (T : List (String × String))
    (p : BumpPlan) (hp : p ∈ allPlans (lf.analyze T)) :
    p.oldVersion ≠ p.newVersion := by
  have hp2 : p ∈ (lf.entries.filter (qualifies T)).map (planOfEntry T) :=
    (allPlans_perm lf T).mem_iff.mp hp
  obtain ⟨e, he, hpe⟩ := List.mem_map.mp hp2
  have hq : qualifies T e = true := List.of_mem_filter he
  unfold qualifies at hq
  cases h : lookupStr T e.name with
  | none => rw [h] at hq; exact absurd hq (by simp)
  | some t =>
    rw [h] at hq
    have hne : t ≠ e.version := by simpa using hq
    subst hpe
    unfold planOfEntry toPlan
    simp [h]
    exact fun hcontra => hne hcontra.symm

/-- The lexicographic order is irreflexive. -/
theorem lexLt_irrefl (l : List Char) : lexLt l l = false := by
  induction l with
  | nil => rfl
  | cons a as ih => simp [lexLt, ih]

/-- The lexicographic order is asymmetric. -/
theorem lexLt_asymm {a b : List Char} (h : lexLt a b = true) :
    lexLt b a = false := by
  induction a generalizing b with
  | nil =>
    cases b with
    | nil => simp [lexLt] at h
    | cons x xs => simp [lexLt]
  | cons x xs ih =>
    cases b with
    | nil => simp [lexLt] at h
    | cons y ys =>
      by_cases hxy : x = y
      · subst hxy
        simp only [lexLt, if_pos rfl] at h ⊢
        exact ih h
      · simp only [lexLt, if_neg hxy] at h
        have : ¬ y = x := fun hyx => hxy hyx.symm
        simp only [lexLt, if_neg this]
        simp only [decide_eq_true_eq] at h
        simp only [decide_eq_false_iff_not]
        omega

/-- The lexicographic order is transitive. -/
theorem lexLt_trans {a b c : List Char} (h1 : lexLt a b = true)
    (h2 : lexLt b c = true) : lexLt a c = true := by
  induction a generalizing b c with
  | nil =>
    cases c with
    | nil =>
      cases b with
      | nil => simp [lexLt] at h1
      | cons y ys => simp [lexLt] at h2
    | cons z zs => simp [lexLt]
  | cons x xs ih =>
    cases b with
    | nil => simp [lexLt] at h1
    | cons y ys =>
      cases c with
      | nil => simp [lexLt] at h2
      | cons z zs =>
        by_cases hxy : x = y
        · subst hxy
          simp only [lexLt, if_pos rfl] at h1
          by_cases hyz : x = z
          · subst hyz
            simp only [lexLt, if_pos rfl] at h2 ⊢
            exact ih h1 h2
          · simp only [lexLt, if_neg hyz] at h2 ⊢
            exact h2
        · simp only [lexLt, if_neg hxy, decide_eq_true_eq] at h1
          by_cases hyz : y = z
          · subst hyz
            have : ¬ x = y := hxy
            simp only [lexLt, if_neg this, decide_eq_true_eq]
            exact h1
          · simp only [lexLt, if_neg hyz, decide_eq_true_eq] at h2
            have hxz : ¬ x = z := by
              intro hxz
              subst hxz
              omega
            simp only [lexLt, if_neg hxz, decide_eq_true_eq]
            omega

/-- Trichotomy for the lexicographic order: a non-less pair is greater or
equal. -/
theorem lexLt_eq_false_cases {a b : List Char} (h : lexLt a b = false) :
    lexLt b a = true ∨ a = b := by
  induction a generalizing b with
  | nil =>
    cases b with
    | nil => exact Or.inr rfl
    | cons y ys => simp [lexLt] at h
  | cons x xs ih =>
    cases b with
    | nil => exact Or.inl (by simp [lexLt])
    | cons y ys =>
      by_cases hxy : x = y
      · subst hxy
        simp only [lexLt, if_pos rfl] at h ⊢
        rcases ih h with h2 | h2
        · exact Or.inl h2
        · exact Or.inr (by rw [h2])
      · simp only [lexLt, if_neg hxy, decide_eq_false_iff_not] at h
        have hne : x.toNat ≠ y.toNat := by
          intro heq
          exact hxy (Char.ext (UInt32.ext heq))
        have hyx : ¬ y = x := fun h2 => hxy h2.symm
        refine Or.inl ?_
        simp only [lexLt, if_neg hyx, decide_eq_true_eq]
        omega

instance : IsTotal LockEntry keyLe :=
  ⟨fun a b => by
    unfold keyLe
    cases h : lexLt (entryKey b).data (entryKey a).data
    · exact Or.inl rfl
    · exact Or.inr (lexLt_asymm h)⟩

instance : IsTrans LockEntry keyLe :=
  ⟨fun a b c hab hbc => by
    unfold keyLe at hab hbc ⊢
    cases h : lexLt (entryKey c).data (entryKey a).data
    · rfl
    · exfalso
      rcases lexLt_eq_false_cases hbc with h2 | h2
      · -- the key of b is strictly below the key of c, and c < a, so b < a
        have h3 : lexLt (entryKey b).data (entryKey a).data = true :=
          lexLt_trans h2 h
        rw [hab] at h3
        exact Bool.false_ne_true h3
      · -- keys of c and b coincide, so c < a contradicts b not below a
        rw [h2] at h
        rw [hab] at h
        exact Bool.false_ne_true h⟩

/-- A lookup in the one-element mapping `[(n, v)]`. -/
theorem lookupStr_single {α : Type} (n m : String) (v : α) :
    lookupStr [(n, v)] m = if n = m then some v else none := by
  unfold lookupStr
  split <;> simp_all [lookupStr]

/-- `qualSat` against a single-name target, factored by name. -/
theorem qualSat_single (n v : String) (e : LockEntry) :
    qualSat [(n, v)] e
      = (((v != e.version) && satisfies v e.range) && (e.name == n)) := by
  unfold qualSat
  rw [lookupStr_single]
  by_cases h : n = e.name
  · simp [h]
  · have h2 : e.name ≠ n := fun h3 => h h3.symm
    simp [h, h2]

/-- An entry kept by a name filter bears that name. -/
theorem filter_name_mem {l : List LockEntry} {n : String} {e : LockEntry}
    (h : e ∈ l.filter (fun x => x.name == n)) : e.name = n := by
  have := List.of_mem_filter h
  simpa using this

/-- C1: for every lockfile text `L` and target mapping `T`, the analysis of
`load(L)` against `T` produces exactly one `BumpPlan` per lock entry whose
name is in `T` and whose resolved version differs from `T`'s value — the
plan rows are a permutation of one row per qualifying entry, never more,
never fewer — and every emitted plan records a genuine version change (an
entry already at the target yields no plan). -/
theorem c1_analyze_exactly_one_plan (L : String) (T : List (String × String)) :
    (allPlans ((loadLockfile L).analyze T)).Perm
      (((loadLockfile L).entries.filter (qualifies T)).map (planOfEntry T))
    ∧ ∀ p ∈ allPlans ((loadLockfile L).analyze T), p.oldVersion ≠ p.newVersion :=
  ⟨allPlans_perm (loadLockfile L) T,
   fun p hp => allPlans_oldVersion_ne (loadLockfile L) T p hp⟩

/-- Witness for C1 at the test suite's `lockfileMock` and its resolved
targets: the three expected unlock/invalid rows, exactly one per outdated
entry. -/
theorem c1_analyze_exactly_one_plan_witness :
    ((allPlans ((loadLockfile lockfileMock).analyze fixTargets)).Perm
      (((loadLockfile lockfileMock).entries.filter (qualifies fixTargets)).map
        (planOfEntry fixTargets))
    ∧ ∀ p ∈ allPlans ((loadLockfile lockfileMock).analyze fixTargets),
        p.oldVersion ≠ p.newVersion)
    ∧ allPlans ((loadLockfile lockfileMock).analyze fixTargets)
        = [⟨"@backstage/theme", "^1.0.0", "^2.0.0", "1.0.0", "2.0.0"⟩,
           ⟨"@backstage/core", "^1.0.3", "^1.0.6", "1.0.3", "1.0.6"⟩,
           ⟨"@backstage/core-api", "^1.0.6", "^1.0.7", "1.0.6", "1.0.7"⟩,
           ⟨"@backstage/core-api", "^1.0.3", "^1.0.7", "1.0.3", "1.0.7"⟩] :=
  ⟨c1_analyze_exactly_one_plan lockfileMock fixTargets,
   by set_option maxRecDepth 100000 in decide⟩

/-- C2: two lock entries of the same package name with different ranges that
both converge on the same new version `v` (one already resolves `v`, the
other is range-unlocked to it) are consolidated: the serialized output keeps
exactly one entry of that name (the one resolving `v`), entries of other
packages are untouched, and the output is sorted lexicographically by
lockfile key. -/
theorem c2_duplicate_consolidation (lf : Lockfile) (n v : String)
    (e1 e2 : LockEntry)
    (hfilter : lf.entries.filter (fun e => e.name == n) = [e1, e2])
    (h1v : e1.version = v) (h2v : e2.version ≠ v)
    (hr : e1.range ≠ e2.range)
    (hsat : satisfies v e2.range = true) :
    (serializedEntries ⟨removeEntries lf.entries
        ((lf.analyze [(n, v)]).newRanges)⟩).filter (fun e => e.name == n) = [e1]
    ∧ (removeEntries lf.entries ((lf.analyze [(n, v)]).newRanges)).filter
        (fun e => ! (e.name == n)) = lf.entries.filter (fun e => ! (e.name == n))
    ∧ List.Sorted keyLe (serializedEntries ⟨removeEntries lf.entries
        ((lf.analyze [(n, v)]).newRanges)⟩) := by
  have he1 : e1.name = n := filter_name_mem (by rw [hfilter]; exact List.mem_cons_self _ _)
  have he2 : e2.name = n := filter_name_mem (by rw [hfilter]; simp)
  -- the unlock list is exactly the plan row of the outdated duplicate
  have hnew : (lf.analyze [(n, v)]).newRanges = [toPlan v e2] := by
    rw [analyze_newRanges]
    have hq : lf.entries.filter (qualSat [(n, v)])
        = (lf.entries.filter (fun e => e.name == n)).filter
            (fun e => (v != e.version) && satisfies v e.range) := by
      rw [List.filter_filter]
      exact List.filter_congr (fun e _ => by rw [qualSat_single, Bool.and_comm])
    have hq2 : lf.entries.filter (qualSat [(n, v)]) = [e2] := by
      rw [hq, hfilter]
      have hv1 : (v != e1.version) = false := by simp [h1v]
      have hvne : v ≠ e2.version := fun h => h2v h.symm
      have hv2 : (v != e2.version) = true := by simp [hvne]
      simp [List.filter_cons, hv1, hv2, hsat]
    rw [hq2]
    simp only [List.map_cons, List.map_nil]
    unfold planOfEntry
    rw [he2, lookupStr_single, if_pos rfl]
    rfl
  have hmatch1 : planMatches (toPlan v e2) e1 = false := by
    unfold planMatches toPlan
    have hrne : e2.range ≠ e1.range := fun h => hr h.symm
    have hb : (e2.range == e1.range) = false := by simp [hrne]
    simp [hb]
  have hrm : removeEntries lf.entries ((lf.analyze [(n, v)]).newRanges)
      = lf.entries.filter (fun e => ! planMatches (toPlan v e2) e) := by
    rw [hnew]
    unfold removeEntries
    exact List.filter_congr (fun e _ => by simp)
  refine ⟨?_, ?_, List.sorted_insertionSort keyLe _⟩
  · -- exactly one surviving entry of the duplicated name
    have hperm : (serializedEntries ⟨removeEntries lf.entries
          ((lf.analyze [(n, v)]).newRanges)⟩).filter (fun e => e.name == n)
        |>.Perm ((removeEntries lf.entries
          ((lf.analyze [(n, v)]).newRanges)).filter (fun e => e.name == n)) :=
      List.Perm.filter _ (List.perm_insertionSort keyLe _)
    have hres : (removeEntries lf.entries
        ((lf.analyze [(n, v)]).newRanges)).filter (fun e => e.name == n) = [e1] := by
      rw [hrm]
      have hstep : (lf.entries.filter
            (fun e => ! planMatches (toPlan v e2) e)).filter (fun e => e.name == n)
          = (lf.entries.filter (fun e => e.name == n)).filter
              (fun e => ! planMatches (toPlan v e2) e) := by
        rw [List.filter_filter, List.filter_filter]
        exact List.filter_congr (fun e _ => Bool.and_comm _ _)
      rw [hstep, hfilter]
      have h2self : planMatches (toPlan v e2) e2 = true := by
        unfold planMatches toPlan
        simp
      simp [List.filter_cons, hmatch1, h2self]
    rw [hres] at hperm
    exact List.perm_singleton.mp hperm
  · -- entries of other packages survive untouched
    rw [hrm, List.filter_filter]
    refine List.filter_congr (fun e _ => ?_)
    by_cases hname : e.name = n
    · simp [hname]
    · have hne : n ≠ e.name := fun h => hname h.symm
      have hm : planMatches (toPlan v e2) e = false := by
        unfold planMatches toPlan
        have hb : (e2.name == e.name) = false := by
          rw [he2]
          simp [hne]
        simp [hb]
      simp [hm, hname]

/-- Witness for C2 at the `lockfileMock` duplicate pair of
`@backstage/core` (ranges `^1.0.5` and `^1.0.3`, both converging on
`1.0.6`): the consolidated output keeps only the `^1.0.5` entry. -/
theorem c2_duplicate_consolidation_witness :
    (fixLockfile.entries.filter (fun e => e.name == "@backstage/core")
        = [⟨"@backstage/core", "^1.0.5", "1.0.6", [("@backstage/core-api", "^1.0.6")]⟩,
           ⟨"@backstage/core", "^1.0.3", "1.0.3", [("@backstage/core-api", "^1.0.3")]⟩])
    ∧ ((serializedEntries ⟨removeEntries fixLockfile.entries
          ((fixLockfile.analyze [("@backstage/core", "1.0.6")]).newRanges)⟩).filter
          (fun e => e.name == "@backstage/core")
        = [⟨"@backstage/core", "^1.0.5", "1.0.6", [("@backstage/core-api", "^1.0.6")]⟩]
      ∧ (removeEntries fixLockfile.entries
          ((fixLockfile.analyze [("@backstage/core", "1.0.6")]).newRanges)).filter
          (fun e => ! (e.name == "@backstage/core"))
        = fixLockfile.entries.filter (fun e => ! (e.name == "@backstage/core"))
      ∧ List.Sorted keyLe (serializedEntries ⟨removeEntries fixLockfile.entries
          ((fixLockfile.analyze [("@backstage/core", "1.0.6")]).newRanges)⟩)) :=
  ⟨by decide,
   c2_duplicate_consolidation fixLockfile "@backstage/core" "1.0.6"
     ⟨"@backstage/core", "^1.0.5", "1.0.6", [("@backstage/core-api", "^1.0.6")]⟩
     ⟨"@backstage/core", "^1.0.3", "1.0.3", [("@backstage/core-api", "^1.0.3")]⟩
     (by decide) (by decide) (by decide) (by decide) (by decide)⟩

/-- The chronological comparison is irreflexive. -/
theorem timeLt_irrefl (a : String) : timeLt a a = false := lexLt_irrefl a.data

/-- C3: for a release-line tag other than "latest" and "main", when both
`dist-tags.latest` and `dist-tags[T]` exist with publish timestamps,
`VersionFinder.resolve` returns whichever of the two versions has the later
publish timestamp, and on equal timestamps returns the latest-tag version. -/
theorem c3_tag_time_tiebreak (T nm vl vt tl tt : String) (info : PkgInfo)
    (hT1 : T ≠ "latest") (hT2 : T ≠ "main")
    (hl : lookupStr info.distTags "latest" = some vl)
    (ht : lookupStr info.distTags T = some vt)
    (htl : lookupStr info.time vl = some tl)
    (htt : lookupStr info.time vt = some tt) :
    findVersion T nm info = .ok (if timeLt tl tt then vt else vl)
    ∧ (tl = tt → findVersion T nm info = .ok vl) := by
  have hmain : findVersion T nm info
      = .ok (if timeLt tl tt then vt else vl) := by
    unfold findVersion
    simp only [if_neg hT2, hl, if_neg hT1, ht, htl, htt]
  refine ⟨hmain, fun heq => ?_⟩
  rw [hmain, heq, timeLt_irrefl]
  simp

/-- Witness for C3 at the createVersionFinder test data: tag "next" with
`latest = 1.0.0` published 2020-01-01 and `next = 0.9.0` published
2020-02-01 resolves `0.9.0`; with equal timestamps it resolves `1.0.0`. -/
theorem c3_tag_time_tiebreak_witness :
    (findVersion "next" "@backstage/core"
        ⟨[("latest", "1.0.0"), ("next", "0.9.0")],
         [("1.0.0", "2020-01-01T00:00:00.000Z"), ("0.9.0", "2020-02-01T00:00:00.000Z")]⟩
      = .ok (if timeLt "2020-01-01T00:00:00.000Z" "2020-02-01T00:00:00.000Z"
          then "0.9.0" else "1.0.0"))
    ∧ (findVersion "next" "@backstage/core"
        ⟨[("latest", "1.0.0"), ("next", "0.9.0")],
         [("1.0.0", "2020-01-01T00:00:00.000Z"), ("0.9.0", "2020-02-01T00:00:00.000Z")]⟩
      = .ok "0.9.0") :=
  ⟨(c3_tag_time_tiebreak "next" "@backstage/core" "1.0.0" "0.9.0"
      "2020-01-01T00:00:00.000Z" "2020-02-01T00:00:00.000Z"
      ⟨[("latest", "1.0.0"), ("next", "0.9.0")],
       [("1.0.0", "2020-01-01T00:00:00.000Z"), ("0.9.0", "2020-02-01T00:00:00.000Z")]⟩
      (by decide) (by decide) (by decide) (by decide) (by decide) (by decide)).1,
   rfl⟩

/-- C7 counterexample: the claim says resolve fails whenever the requested
dist-tag is absent; but with tag "next" absent and only `latest = 1.0.0`
published, resolve returns `1.0.0` (exactly the test at bump.test.ts:976-980),
so it does return a version. -/
theorem c7_missing_tag_counterexample :
    findVersion "next" "@backstage/core"
        ⟨[("latest", "1.0.0")], [("1.0.0", "2020-01-01T00:00:00.000Z")]⟩
      = .ok "1.0.0" := rfl

/-- C7 as amended: resolve fails with a descriptive error when the `latest`
dist-tag is absent; when the requested tag `T` (not "latest"/"main") is
absent but `latest` exists, resolve returns the latest version instead of
failing. -/
theorem c7_missing_tag_amended (T nm : String) (info : PkgInfo) :
    (lookupStr info.distTags "latest" = none →
      findVersion T nm info
        = .error ("No target latest version found for " ++ nm))
    ∧ (∀ vl, T ≠ "latest" → T ≠ "main" →
        lookupStr info.distTags "latest" = some vl →
        lookupStr info.distTags T = none →
        findVersion T nm info = .ok vl) := by
  constructor
  · intro h
    unfold findVersion
    simp only [h]
  · intro vl hT1 hT2 hl ht
    unfold findVersion
    simp only [if_neg hT2, hl, if_neg hT1, ht]

/-- Witness for the amended C7: with no dist-tags at all resolve fails
naming `latest`; with only `latest` present and tag "next" requested it
returns the latest version. -/
theorem c7_missing_tag_amended_witness :
    (findVersion "next" "@backstage/core" ⟨[], []⟩
      = .error ("No target latest version found for " ++ "@backstage/core"))
    ∧ (findVersion "next" "@backstage/core"
        ⟨[("latest", "1.0.6")], [("1.0.6", "2020-01-01T00:00:00.000Z")]⟩
      = .ok "1.0.6") :=
  ⟨(c7_missing_tag_amended "next" "@backstage/core" ⟨[], []⟩).1 rfl,
   (c7_missing_tag_amended "next" "@backstage/core"
      ⟨[("latest", "1.0.6")], [("1.0.6", "2020-01-01T00:00:00.000Z")]⟩).2
     "1.0.6" (by decide) (by decide) rfl rfl⟩

/-- C4: with release "next", the engine fetches both the "next" and "main"
manifests and the one with the higher `releaseVersion` under semver
comparison becomes effective (`planOf`, and so `runBump`, consume the
manifest through `resolveManifest`). -/
theorem c4_next_picks_higher_release (env : Env) (n m : ReleaseManifest)
    (vn vm : String) (sn sm : SemVer)
    (hn : env.manifestByTag "next" = some n)
    (hm : env.manifestByTag "main" = some m)
    (hvn : n.releaseVersion = some vn) (hvm : m.releaseVersion = some vm)
    (hpn : parseSemVer vn = some sn) (hpm : parseSemVer vm = some sm) :
    resolveManifest "next" env = .ok (some (if semverLt sn sm then m else n)) := by
  unfold resolveManifest
  have hexp : isExplicitVersion "next" = false := by decide
  simp only [hexp, Bool.false_eq_true, if_false, if_pos rfl, hn, hm]
  unfold pickManifest
  simp only [hvn, hvm, hpn, hpm]
  simp

/-- Witness for C4 at the manifest-selection test: a "main" manifest at
releaseVersion 1.0.0 beats the "next" manifest at 1.0.0-next.1. -/
theorem c4_next_picks_higher_release_witness :
    resolveManifest "next" nextEnv = .ok (some mainMani) := by
  have h := c4_next_picks_higher_release nextEnv nextMani mainMani
    "1.0.0-next.1" "1.0.0" ⟨1, 0, 0, [.str "next", .num 1]⟩ ⟨1, 0, 0, []⟩
    rfl rfl rfl rfl (by decide) (by decide)
  have h2 : (if semverLt ⟨1, 0, 0, [.str "next", .num 1]⟩ ⟨1, 0, 0, []⟩
      then mainMani else nextMani) = mainMani := by decide
  rw [h2] at h
  exact h

/-- C5: requesting an explicit release version whose manifest fetch 404s
makes the whole run abort with "No release found for `<version>` version"
before any write: the outcome keeps the file state untouched, logs only the
pattern announcement, and never invokes the install step. -/
theorem c5_explicit_404_aborts (opts : BumpOptions) (env : Env) (fs : FsState)
    (hver : isExplicitVersion opts.release = true)
    (h404 : env.manifestByVersion opts.release = none) :
    runBump opts env fs
      = ⟨some ("No release found for " ++ opts.release ++ " version"),
         fs, [patLog opts], false⟩ := by
  unfold runBump planOf resolveManifest
  simp [hver, h404]

/-- Witness for C5 at the fatal-path test: release "999.0.1" with no
manifest behind it aborts with the version named, files untouched. -/
theorem c5_explicit_404_aborts_witness :
    runBump c5Opts no404Env fixFs
      = ⟨some ("No release found for " ++ "999.0.1" ++ " version"),
         fixFs, [patLog c5Opts], false⟩ :=
  c5_explicit_404_aborts c5Opts no404Env fixFs (by decide) rfl

/-- A successful resolution loop records exactly the resolutions of its
names. -/
theorem resolveLoop_mem_iff {f : String → Except FindErr String} :
    ∀ {names : List String} {ts : List (String × String)} {ls : List String},
      resolveLoop f names = .ok (ts, ls) →
      ∀ n v, ((n, v) ∈ ts ↔ n ∈ names ∧ f n = .ok v)
  | [], ts, ls, h, n, v => by
    simp [resolveLoop] at h
    simp [h.1]
  | m :: ns, ts, ls, h, n, v => by
    simp only [resolveLoop] at h
    cases hf : f m with
    | ok w =>
      rw [hf] at h
      cases hrest : resolveLoop f ns with
      | ok r =>
        rw [hrest] at h
        simp only [Except.map, Except.ok.injEq] at h
        obtain ⟨hts, hls⟩ : (m, w) :: r.1 = ts ∧ r.2 = ls := by
          constructor
          · exact congrArg Prod.fst h
          · exact congrArg Prod.snd h
        subst hts
        have ih := @resolveLoop_mem_iff f ns r.1 r.2
          (by rw [hrest]) n v
        constructor
        · intro hmem
          rcases List.mem_cons.mp hmem with h1 | h1
          · obtain ⟨hn, hv⟩ := Prod.mk.injEq .. ▸ h1
            cases h1
            exact ⟨List.mem_cons_self _ _, hf⟩
          · obtain ⟨h2, h3⟩ := ih.mp h1
            exact ⟨List.mem_cons_of_mem _ h2, h3⟩
        · intro ⟨hmem, hv⟩
          rcases List.mem_cons.mp hmem with h1 | h1
          · subst h1
            rw [hf] at hv
            cases hv
            exact List.mem_cons_self _ _
          · exact List.mem_cons_of_mem _ (ih.mpr ⟨h1, hv⟩)
      | error e => rw [hrest] at h; exact absurd h (by simp [Except.map])
    | error err =>
      cases err with
      | notFound =>
        rw [hf] at h
        cases hrest : resolveLoop f ns with
        | ok r =>
          rw [hrest] at h
          simp only [Except.map, Except.ok.injEq] at h
          have hts : r.1 = ts := congrArg Prod.fst h
          subst hts
          have ih := @resolveLoop_mem_iff f ns r.1 r.2
            (by rw [hrest]) n v
          constructor
          · intro hmem
            obtain ⟨h2, h3⟩ := ih.mp hmem
            exact ⟨List.mem_cons_of_mem _ h2, h3⟩
          · intro ⟨hmem, hv⟩
            rcases List.mem_cons.mp hmem with h1 | h1
            · subst h1
              rw [hf] at hv
              cases hv
            · exact ih.mpr ⟨h1, hv⟩
        | error e => rw [hrest] at h; exact absurd h (by simp [Except.map])
      | fatal msg => rw [hf] at h; exact absurd h (by simp)

/-- The drop notice of every recoverable miss appears in the loop's log. -/
theorem resolveLoop_ignore {f : String → Except FindErr String} :
    ∀ {names : List String} {ts : List (String × String)} {ls : List String},
      resolveLoop f names = .ok (ts, ls) →
      ∀ n ∈ names, f n = .error .notFound → ignoreLog n ∈ ls
  | [], ts, ls, h, n, hmem, hf => by simp at hmem
  | m :: ns, ts, ls, h, n, hmem, hf => by
    simp only [resolveLoop] at h
    cases hfm : f m with
    | ok w =>
      rw [hfm] at h
      cases hrest : resolveLoop f ns with
      | ok r =>
        rw [hrest] at h
        simp only [Except.map, Except.ok.injEq] at h
        have hls : r.2 = ls := congrArg Prod.snd h
        subst hls
        rcases List.mem_cons.mp hmem with h1 | h1
        · subst h1; rw [hfm] at hf; cases hf
        · exact resolveLoop_ignore (by rw [hrest]) n h1 hf
      | error e => rw [hrest] at h; exact absurd h (by simp [Except.map])
    | error err =>
      cases err with
      | notFound =>
        rw [hfm] at h
        cases hrest : resolveLoop f ns with
        | ok r =>
          rw [hrest] at h
          simp only [Except.map, Except.ok.injEq] at h
          have hls : ignoreLog m :: r.2 = ls := congrArg Prod.snd h
          subst hls
          rcases List.mem_cons.mp hmem with h1 | h1
          · subst h1; exact List.mem_cons_self _ _
          · exact List.mem_cons_of_mem _ (resolveLoop_ignore (by rw [hrest]) n h1 hf)
        | error e => rw [hrest] at h; exact absurd h (by simp [Except.map])
      | fatal msg => rw [hfm] at h; exact absurd h (by simp)

/-- A failed resolution loop names a fatal resolution among its names. -/
theorem resolveLoop_error {f : String → Except FindErr String} :
    ∀ {names : List String} {msg : String},
      resolveLoop f names = .error msg →
      ∃ n ∈ names, f n = .error (.fatal msg)
  | [], msg, h => by simp [resolveLoop] at h
  | m :: ns, msg, h => by
    simp only [resolveLoop] at h
    cases hfm : f m with
    | ok w =>
      rw [hfm] at h
      cases hrest : resolveLoop f ns with
      | ok r => rw [hrest] at h; exact absurd h (by simp [Except.map])
      | error e =>
        rw [hrest] at h
        simp only [Except.map, Except.error.injEq] at h
        subst h
        obtain ⟨n, hn, hf⟩ := resolveLoop_error hrest
        exact ⟨n, List.mem_cons_of_mem _ hn, hf⟩
    | error err =>
      cases err with
      | notFound =>
        rw [hfm] at h
        cases hrest : resolveLoop f ns with
        | ok r => rw [hrest] at h; exact absurd h (by simp [Except.map])
        | error e =>
          rw [hrest] at h
          simp only [Except.map, Except.error.injEq] at h
          subst h
          obtain ⟨n, hn, hf⟩ := resolveLoop_error hrest
          exact ⟨n, List.mem_cons_of_mem _ hn, hf⟩
      | fatal m2 =>
        rw [hfm] at h
        simp only [Except.error.injEq] at h
        subst h
        exact ⟨m, List.mem_cons_self _ _, hfm⟩

/-- A loop over names with no fatal resolution succeeds. -/
theorem resolveLoop_ok_of_no_fatal {f : String → Except FindErr String}
    {names : List String}
    (h : ∀ n ∈ names, ∀ msg, f n ≠ .error (.fatal msg)) :
    ∃ r, resolveLoop f names = .ok r := by
  cases hr : resolveLoop f names with
  | ok r => exact ⟨r, rfl⟩
  | error msg =>
    obtain ⟨n, hn, hf⟩ := resolveLoop_error hr
    exact absurd hf (h n hn msg)

/-- The loop only reads its resolver at its own names. -/
theorem resolveLoop_congr {f g : String → Except FindErr String} :
    ∀ {names : List String}, (∀ n ∈ names, f n = g n) →
      resolveLoop f names = resolveLoop g names
  | [], _ => rfl
  | m :: ns, h => by
    have hm : f m = g m := h m (List.mem_cons_self _ _)
    have hns : resolveLoop f ns = resolveLoop g ns :=
      resolveLoop_congr (fun n hn => h n (List.mem_cons_of_mem _ hn))
    simp only [resolveLoop, hm, hns]

/-- A resolved pair found by lookup was resolved by the loop's resolver. -/
theorem resolveLoop_lookup_some {f : String → Except FindErr String}
    {names : List String} {ts : List (String × String)} {ls : List String}
    {n v : String} (h : resolveLoop f names = .ok (ts, ls))
    (hn : n ∈ names) (hv : f n = .ok v) : lookupStr ts n = some v := by
  have hmem : (n, v) ∈ ts := (resolveLoop_mem_iff h n v).mpr ⟨hn, hv⟩
  obtain ⟨w, hw⟩ := mem_lookupStr_isSome hmem
  have hw2 := (resolveLoop_mem_iff h n w).mp (lookupStr_some_mem hw)
  rw [hv] at hw2
  cases hw2.2
  exact hw

/-- A name the loop's resolver does not resolve is absent from the targets. -/
theorem resolveLoop_lookup_none {f : String → Except FindErr String}
    {names : List String} {ts : List (String × String)} {ls : List String}
    {n : String} (h : resolveLoop f names = .ok (ts, ls))
    (hnone : ∀ v, f n ≠ .ok v) : lookupStr ts n = none := by
  cases hl : lookupStr ts n with
  | none => rfl
  | some v =>
    have hmem := (resolveLoop_mem_iff h n v).mp (lookupStr_some_mem hl)
    exact absurd hmem.2 (hnone v)

/-- Membership through the first-occurrence deduplication. -/
theorem mem_dedupAux {n : String} :
    ∀ {l seen : List String}, n ∈ dedupAux seen l ↔ (n ∈ l ∧ n ∉ seen)
  | [], seen => by simp [dedupAux]
  | x :: xs, seen => by
    by_cases hx : x ∈ seen
    · simp only [dedupAux, if_pos hx]
      rw [mem_dedupAux (l := xs)]
      constructor
      · exact fun ⟨h1, h2⟩ => ⟨List.mem_cons_of_mem _ h1, h2⟩
      · rintro ⟨h1, h2⟩
        rcases List.mem_cons.mp h1 with h3 | h3
        · subst h3; exact absurd hx h2
        · exact ⟨h3, h2⟩
    · simp only [dedupAux, if_neg hx]
      constructor
      · intro h
        rcases List.mem_cons.mp h with h1 | h1
        · subst h1; exact ⟨List.mem_cons_self _ _, hx⟩
        · have := (mem_dedupAux (l := xs)).mp h1
          refine ⟨List.mem_cons_of_mem _ this.1, fun hs => this.2 (List.mem_cons_of_mem _ hs)⟩
      · rintro ⟨h1, h2⟩
        rcases List.mem_cons.mp h1 with h3 | h3
        · subst h3; exact List.mem_cons_self _ _
        · by_cases hnx : n = x
          · subst hnx; exact List.mem_cons_self _ _
          · exact List.mem_cons_of_mem _
              ((mem_dedupAux (l := xs)).mpr
                ⟨h3, fun hs => by
                  rcases List.mem_cons.mp hs with h4 | h4
                  · exact hnx h4
                  · exact h2 h4⟩)

/-- Deduplication preserves membership. -/
theorem mem_dedup {n : String} {l : List String} : n ∈ dedup l ↔ n ∈ l := by
  unfold dedup
  rw [mem_dedupAux]
  simp

/-- Every name of the workspace working set is declared by some workspace
dependency. -/
theorem wsDepNames_mem {pkgs : List WsPackage} {pat n : String}
    (h : n ∈ wsDepNames pkgs pat) :
    ∃ p ∈ pkgs, ∃ d ∈ p.deps, d.1 = n := by
  unfold wsDepNames at h
  have h2 := mem_dedup.mp h
  have h3 := List.mem_of_mem_filter h2
  obtain ⟨p, hp, h4⟩ := List.mem_flatMap.mp h3
  obtain ⟨d, hd, h5⟩ := List.mem_map.mp h4
  exact ⟨p, hp, d, hd, h5⟩

/-- Every name of the transitive working set names a lockfile entry. -/
theorem phase2Names_mem {lf : Lockfile} {pat n : String}
    {t1 : List (String × String)} (h : n ∈ phase2Names lf pat t1) :
    ∃ e ∈ lf.entries, e.name = n := by
  unfold phase2Names at h
  have h2 := List.mem_of_mem_filter h
  have h3 := mem_dedup.mp h2
  obtain ⟨e, he, h4⟩ := List.mem_map.mp h3
  exact ⟨e, he, h4⟩

/-- A successful loop lifts to a successful checking pass. -/
theorem resolveNames_ok {f : String → Except FindErr String}
    {names : List String} {ts : List (String × String)} {ls0 : List String}
    (h : resolveLoop f names = .ok (ts, ls0)) :
    resolveNames f names = .ok (ts, names.map checkLog ++ ls0) := by
  unfold resolveNames
  rw [h]
  rfl

/-- `planOf` assembled from its three successful stages. -/
theorem planOf_eq_ok {opts : BumpOptions} {env : Env} {fs : FsState}
    {mani : Option ReleaseManifest} {t1 t2 : List (String × String)}
    {l1 l2 : List String}
    (hmani : resolveManifest opts.release env = .ok mani)
    (h1 : resolveNames (resolveTarget mani opts.release env.registry)
        (wsDepNames fs.packages (patOf opts)) = .ok (t1, l1))
    (h2 : resolveNames (resolveTarget mani opts.release env.registry)
        (phase2Names fs.lockfile (patOf opts) t1) = .ok (t2, l2)) :
    planOf opts env fs = .ok ⟨mani, t1 ++ t2,
      l1 ++ recheckLogs mani (wsDepNames fs.packages (patOf opts)) ++ l2,
      fs.lockfile.analyze (t1 ++ t2), computeBumps fs.packages (t1 ++ t2)⟩ := by
  unfold planOf
  simp only [hmani, h1, h2]

/-- C9: a matched package whose registry lookup misses is non-fatal — the
run still completes successfully (no fatal error in the outcome), the
"Package info not found, ignoring package" notice is logged, and the package
is absent from the resolved target set. -/
theorem c9_notfound_nonfatal (opts : BumpOptions) (env : Env) (fs : FsState)
    (mani : Option ReleaseManifest) (n : String)
    (hmani : resolveManifest opts.release env = .ok mani)
    (hnofatal : ∀ m msg,
      resolveTarget mani opts.release env.registry m ≠ .error (.fatal msg))
    (hman : lookupStr (manifestPackages mani) n = none)
    (hreg : env.registry n = .error .notFound)
    (hmem : n ∈ wsDepNames fs.packages (patOf opts)) :
    (runBump opts env fs).err? = none
    ∧ ignoreLog n ∈ (runBump opts env fs).logs
    ∧ n ∉ (runTargets opts env fs).map Prod.fst := by
  have hfn : resolveTarget mani opts.release env.registry n = .error .notFound := by
    unfold resolveTarget
    rw [hman, hreg]
  obtain ⟨⟨t1, l1⟩, hr1⟩ := @resolveLoop_ok_of_no_fatal
    (resolveTarget mani opts.release env.registry)
    (wsDepNames fs.packages (patOf opts))
    (fun m _ msg => hnofatal m msg)
  obtain ⟨⟨t2, l2⟩, hr2⟩ := @resolveLoop_ok_of_no_fatal
    (resolveTarget mani opts.release env.registry)
    (phase2Names fs.lockfile (patOf opts) t1)
    (fun m _ msg => hnofatal m msg)
  have hplan := planOf_eq_ok hmani (resolveNames_ok hr1) (resolveNames_ok hr2)
  have hign : ignoreLog n ∈ l1 := resolveLoop_ignore hr1 n hmem hfn
  refine ⟨?_, ?_, ?_⟩
  · unfold runBump
    rw [hplan]
    dsimp only
    split <;> rfl
  · unfold runBump
    rw [hplan]
    dsimp only
    split <;> simp [List.mem_cons, List.mem_append, hign]
  · unfold runTargets
    rw [hplan]
    dsimp only
    intro hcontra
    obtain ⟨a, ha, haeq⟩ := List.mem_map.mp hcontra
    rcases List.mem_append.mp ha with h1 | h1
    · have := (resolveLoop_mem_iff hr1 a.1 a.2).mp (by simpa using h1)
      rw [haeq] at this
      rw [hfn] at this
      cases this.2
    · have := (resolveLoop_mem_iff hr2 a.1 a.2).mp (by simpa using h1)
      rw [haeq] at this
      rw [hfn] at this
      cases this.2

/-- Witness for C9: with every registry lookup missing (the "should ignore
not found packages" test), the run completes with the drop notice logged and
an empty target set. -/
theorem c9_notfound_nonfatal_witness :
    ((runBump fixOpts notFoundEnv c9Fs).err? = none
    ∧ ignoreLog "@backstage/core" ∈ (runBump fixOpts notFoundEnv c9Fs).logs
    ∧ "@backstage/core" ∉ (runTargets fixOpts notFoundEnv c9Fs).map Prod.fst) :=
  c9_notfound_nonfatal fixOpts notFoundEnv c9Fs (some ⟨none, []⟩)
    "@backstage/core" rfl
    (fun m msg h => by
      have hrt : resolveTarget (some ⟨none, []⟩) fixOpts.release
          notFoundEnv.registry m = .error .notFound := rfl
      rw [hrt] at h
      simp at h)
    rfl rfl (by decide)

/-- Each breaking-change candidate's row appears in the summary, and its
changelog link too when one is known. -/
theorem breakLines_mem {cands : List (String × String × String)}
    {c : String × String × String} (hc : c ∈ cands) :
    breakRow c ∈ breakLines cands
    ∧ ∀ u, changelogUrl c.1 = some u → u ∈ breakLines cands := by
  unfold breakLines
  have hne : cands.isEmpty = false := by
    cases cands with
    | nil => simp at hc
    | cons _ _ => rfl
  rw [hne]
  simp only [Bool.false_eq_true, if_false]
  constructor
  · exact List.mem_cons_of_mem _
      (List.mem_flatMap.mpr ⟨c, hc, List.mem_cons_self _ _⟩)
  · intro u hu
    refine List.mem_cons_of_mem _ (List.mem_flatMap.mpr ⟨c, hc, ?_⟩)
    rw [hu]
    exact List.mem_cons_of_mem _ (List.mem_cons_self _ _)

/-- C8 counterexample: the claim promises a changelog URL for every
breaking-change row, but a breaking bump of `@acme/pkg` (outside the
project scope) prints its `name : old ~> new` row with no URL line anywhere
in the transcript. -/
theorem c8_breaking_url_counterexample :
    breakRow ("@acme/pkg", "1.0.0", "2.0.0") ∈ (runBump acmeOpts acmeEnv acmeFs).logs
    ∧ ∀ l ∈ (runBump acmeOpts acmeEnv acmeFs).logs,
        startsWithS "    https" l = false := by decide

/-- C8 as amended: at the end of a run in which at least one dependency's
target increased its semver major component, the transcript carries one
`name : oldVersion ~> newVersion` row per such dependency, and a changelog
URL accompanies the rows of packages whose changelog location is known (the
`@backstage/` scope); other rows carry no URL. -/
theorem c8_breaking_summary_rows (opts : BumpOptions) (env : Env)
    (fs : FsState) (c : String × String × String)
    (hc : c ∈ runBreaking opts env fs) :
    breakRow c ∈ (runBump opts env fs).logs
    ∧ (∀ u, changelogUrl c.1 = some u → u ∈ (runBump opts env fs).logs) := by
  unfold runBreaking at hc
  cases hplan : planOf opts env fs with
  | error e =>
    rw [hplan] at hc
    simp at hc
  | ok pd =>
    rw [hplan] at hc
    dsimp only at hc
    have hbne : pd.bumps.isEmpty = false := by
      cases hb : pd.bumps with
      | nil =>
        rw [hb] at hc
        simp [breakingOf, dedupByFstAux] at hc
      | cons _ _ => rfl
    have hbl := breakLines_mem hc
    unfold runBump
    rw [hplan]
    dsimp only
    rw [hbne]
    simp only [Bool.false_and, Bool.false_eq_true, if_false]
    constructor
    · simp [List.mem_cons, List.mem_append, hbl.1]
    · intro u hu
      simp [List.mem_cons, List.mem_append, hbl.2 u hu]

/-- Witness for the amended C8 at the first bump test: `@backstage/theme`
jumps 1.0.0 to 2.0.0, its row is printed and its changelog URL follows. -/
theorem c8_breaking_summary_rows_witness :
    (("@backstage/theme", "1.0.0", "2.0.0") ∈ runBreaking fixOpts fixEnv fixFs)
    ∧ breakRow ("@backstage/theme", "1.0.0", "2.0.0")
        ∈ (runBump fixOpts fixEnv fixFs).logs
    ∧ (∀ u, changelogUrl "@backstage/theme" = some u →
        u ∈ (runBump fixOpts fixEnv fixFs).logs) :=
  ⟨by decide,
   (c8_breaking_summary_rows fixOpts fixEnv fixFs
      ("@backstage/theme", "1.0.0", "2.0.0") (by decide)).1,
   (c8_breaking_summary_rows fixOpts fixEnv fixFs
      ("@backstage/theme", "1.0.0", "2.0.0") (by decide)).2⟩

/-- C10 counterexample: a ManifestOverride for `@backstage/core-api` — a
name that appears in no workspace manifest's dependency fields, only in the
lockfile — does have an effect: it produces a lockfile unlock (and a
lockfile rewrite) that the override-free run does not. -/
theorem c10_override_counterexample :
    (∀ p ∈ quietFs.packages, ∀ d ∈ p.deps, d.1 ≠ "@backstage/core-api")
    ∧ "unlocking @backstage/core-api@^1.0.6 ~> 1.0.7"
        ∈ (runBump fixOpts overrideEnv quietFs).logs
    ∧ (runBump fixOpts overrideEnv quietFs).fs ≠ quietFs
    ∧ "unlocking @backstage/core-api@^1.0.6 ~> 1.0.7"
        ∉ (runBump fixOpts quietEnv quietFs).logs
    ∧ (runBump fixOpts quietEnv quietFs).fs = quietFs := by decide

/-- A failed loop lifts to a failed checking pass. -/
theorem resolveNames_error {f : String → Except FindErr String}
    {names : List String} {e : String}
    (h : resolveLoop f names = .error e) : resolveNames f names = .error e := by
  unfold resolveNames
  rw [h]
  rfl

/-- `planOf` fails when the workspace pass fails. -/
theorem planOf_eq_error1 {opts : BumpOptions} {env : Env} {fs : FsState}
    {mani : Option ReleaseManifest} {e : String}
    (hmani : resolveManifest opts.release env = .ok mani)
    (h1 : resolveNames (resolveTarget mani opts.release env.registry)
        (wsDepNames fs.packages (patOf opts)) = .error e) :
    planOf opts env fs = .error e := by
  unfold planOf
  simp only [hmani, h1]

/-- `planOf` fails when the transitive pass fails. -/
theorem planOf_eq_error2 {opts : BumpOptions} {env : Env} {fs : FsState}
    {mani : Option ReleaseManifest} {t1 : List (String × String)}
    {l1 : List String} {e : String}
    (hmani : resolveManifest opts.release env = .ok mani)
    (h1 : resolveNames (resolveTarget mani opts.release env.registry)
        (wsDepNames fs.packages (patOf opts)) = .ok (t1, l1))
    (h2 : resolveNames (resolveTarget mani opts.release env.registry)
        (phase2Names fs.lockfile (patOf opts) t1) = .error e) :
    planOf opts env fs = .error e := by
  unfold planOf
  simp only [hmani, h1, h2]

/-- C10 as amended: a ManifestOverride whose package name appears neither in
any workspace manifest's dependency fields nor among the lockfile's entry
names has no effect at all — the run's outcome (error, files, transcript and
install) is identical with and without the override.  (The working set is
the glob-matched union of workspace dependencies and lockfile entry names,
not the manifest's contents; an override for a lockfile-only name does act,
as the counterexample shows.) -/
theorem c10_override_outside_workingset_noop (opts : BumpOptions)
    (env1 env2 : Env) (fs : FsState) (m : ReleaseManifest) (x v : String)
    (h1 : resolveManifest opts.release env1 = .ok (some m))
    (h2 : resolveManifest opts.release env2
      = .ok (some ⟨m.releaseVersion, m.packages ++ [(x, v)]⟩))
    (hreg : env1.registry = env2.registry)
    (hws : ∀ p ∈ fs.packages, ∀ d ∈ p.deps, d.1 ≠ x)
    (hlk : ∀ e ∈ fs.lockfile.entries, e.name ≠ x) :
    runBump opts env2 fs = runBump opts env1 fs := by
  have hxws : ∀ n ∈ wsDepNames fs.packages (patOf opts), n ≠ x := by
    intro n hn heq
    obtain ⟨p, hp, d, hd, hdeq⟩ := wsDepNames_mem hn
    exact hws p hp d hd (by rw [hdeq, heq])
  have hf : ∀ n, n ≠ x →
      resolveTarget (some ⟨m.releaseVersion, m.packages ++ [(x, v)]⟩)
        opts.release env2.registry n
      = resolveTarget (some m) opts.release env1.registry n := by
    intro n hnx
    have hlo : lookupStr (m.packages ++ [(x, v)]) n = lookupStr m.packages n := by
      rw [lookupStr_append]
      cases h : lookupStr m.packages n with
      | some w => rfl
      | none =>
        have hxn : ¬ x = n := fun hc => hnx hc.symm
        simp [lookupStr, hxn]
    unfold resolveTarget
    show (match lookupStr (m.packages ++ [(x, v)]) n with
      | some w => Except.ok w
      | none => _) = _
    rw [hlo, hreg]
    rfl
  cases hr1 : resolveLoop (resolveTarget (some m) opts.release env1.registry)
      (wsDepNames fs.packages (patOf opts)) with
  | error e =>
    have hr1b : resolveLoop (resolveTarget
        (some ⟨m.releaseVersion, m.packages ++ [(x, v)]⟩) opts.release env2.registry)
        (wsDepNames fs.packages (patOf opts)) = .error e := by
      rw [resolveLoop_congr (fun n hn => hf n (hxws n hn))]
      exact hr1
    have hp1 := planOf_eq_error1 h1 (resolveNames_error hr1)
    have hp2 := planOf_eq_error1 h2 (resolveNames_error hr1b)
    unfold runBump
    rw [hp1, hp2]
  | ok r1 =>
    have hr1b : resolveLoop (resolveTarget
        (some ⟨m.releaseVersion, m.packages ++ [(x, v)]⟩) opts.release env2.registry)
        (wsDepNames fs.packages (patOf opts)) = .ok r1 := by
      rw [resolveLoop_congr (fun n hn => hf n (hxws n hn))]
      exact hr1
    have hxp2 : ∀ n ∈ phase2Names fs.lockfile (patOf opts) r1.1, n ≠ x := by
      intro n hn heq
      obtain ⟨e, he, heq2⟩ := phase2Names_mem hn
      exact hlk e he (by rw [heq2, heq])
    obtain ⟨t1, l1⟩ := r1
    have hrecheck : recheckLogs (some ⟨m.releaseVersion, m.packages ++ [(x, v)]⟩)
        (wsDepNames fs.packages (patOf opts))
        = recheckLogs (some m) (wsDepNames fs.packages (patOf opts)) := by
      unfold recheckLogs manifestPackages
      have hxmem : x ∉ wsDepNames fs.packages (patOf opts) := by
        intro hx
        exact hxws x hx rfl
      rw [List.filter_append]
      have hsingle : List.filter
          (fun p => (wsDepNames fs.packages (patOf opts)).contains p.1) [(x, v)]
          = [] := by
        rw [List.filter_cons]
        have hcont : ((wsDepNames fs.packages (patOf opts)).contains x) = false := by
          rw [Bool.eq_false_iff]
          intro hc
          exact hxmem (List.mem_of_elem_eq_true hc)
        simp [hcont, hxmem]
      rw [hsingle, List.append_nil]
    cases hr2 : resolveLoop (resolveTarget (some m) opts.release env1.registry)
        (phase2Names fs.lockfile (patOf opts) t1) with
    | error e =>
      have hr2b : resolveLoop (resolveTarget
          (some ⟨m.releaseVersion, m.packages ++ [(x, v)]⟩) opts.release env2.registry)
          (phase2Names fs.lockfile (patOf opts) t1) = .error e := by
        rw [resolveLoop_congr (fun n hn => hf n (hxp2 n hn))]
        exact hr2
      have hp1 := planOf_eq_error2 h1 (resolveNames_ok hr1) (resolveNames_error hr2)
      have hp2 := planOf_eq_error2 h2 (resolveNames_ok hr1b) (resolveNames_error hr2b)
      unfold runBump
      rw [hp1, hp2]
    | ok r2 =>
      obtain ⟨t2, l2⟩ := r2
      have hr2b : resolveLoop (resolveTarget
          (some ⟨m.releaseVersion, m.packages ++ [(x, v)]⟩) opts.release env2.registry)
          (phase2Names fs.lockfile (patOf opts) t1) = .ok (t2, l2) := by
        rw [resolveLoop_congr (fun n hn => hf n (hxp2 n hn))]
        exact hr2
      have hp1 := planOf_eq_ok h1 (resolveNames_ok hr1) (resolveNames_ok hr2)
      have hp2 := planOf_eq_ok h2 (resolveNames_ok hr1b) (resolveNames_ok hr2b)
      have hbs : backstageStep opts.pattern
          (some ⟨m.releaseVersion, m.packages ++ [(x, v)]⟩) fs.backstageJson
          = backstageStep opts.pattern (some m) fs.backstageJson := rfl
      unfold runBump
      rw [hp1, hp2]
      dsimp only
      rw [hrecheck, hbs]

/-- Witness for the amended C10: an override for `@backstage/zzz`, absent
from the workspace dependencies and from the lockfile, leaves the whole run
outcome unchanged. -/
theorem c10_override_outside_workingset_noop_witness :
    runBump fixOpts zzzEnv quietFs = runBump fixOpts quietEnv quietFs :=
  c10_override_outside_workingset_noop fixOpts quietEnv zzzEnv quietFs
    ⟨none, []⟩ "@backstage/zzz" "9.9.9" rfl rfl rfl (by decide) (by decide)

/-- A successful loop had no fatal resolution among its names. -/
theorem resolveLoop_ok_no_fatal {f : String → Except FindErr String} :
    ∀ {names : List String} {r : List (String × String) × List String},
      resolveLoop f names = .ok r →
      ∀ n ∈ names, ∀ msg, f n ≠ .error (.fatal msg)
  | [], r, _, n, hn, msg => by simp at hn
  | m :: ns, r, h, n, hn, msg => by
    simp only [resolveLoop] at h
    cases hfm : f m with
    | ok w =>
      rw [hfm] at h
      cases hrest : resolveLoop f ns with
      | ok r2 =>
        rcases List.mem_cons.mp hn with h1 | h1
        · subst h1; rw [hfm]; simp
        · exact resolveLoop_ok_no_fatal hrest n h1 msg
      | error e => rw [hrest] at h; exact absurd h (by simp [Except.map])
    | error err =>
      cases err with
      | notFound =>
        rw [hfm] at h
        cases hrest : resolveLoop f ns with
        | ok r2 =>
          rcases List.mem_cons.mp hn with h1 | h1
          · subst h1; rw [hfm]; simp
          · exact resolveLoop_ok_no_fatal hrest n h1 msg
        | error e => rw [hrest] at h; exact absurd h (by simp [Except.map])
      | fatal m2 => rw [hfm] at h; exact absurd h (by simp)

/-- Inversion of a successful checking pass. -/
theorem resolveNames_ok_inv {f : String → Except FindErr String}
    {names : List String} {t : List (String × String)} {l : List String}
    (h : resolveNames f names = .ok (t, l)) :
    ∃ ls0, resolveLoop f names = .ok (t, ls0)
      ∧ l = names.map checkLog ++ ls0 := by
  unfold resolveNames at h
  cases hr : resolveLoop f names with
  | error e => rw [hr] at h; exact absurd h (by simp [Except.map])
  | ok r =>
    obtain ⟨a, b⟩ := r
    rw [hr] at h
    simp only [Except.map, Except.ok.injEq, Prod.mk.injEq] at h
    obtain ⟨h1, h2⟩ := h
    exact ⟨b, by rw [h1], h2.symm⟩

/-- Rewriting ranges does not change which dependency names are declared. -/
theorem applyBumps_depNames (pkgs : List WsPackage)
    (target : List (String × String)) :
    (applyBumps pkgs target).flatMap (fun p => p.deps.map Prod.fst)
      = pkgs.flatMap (fun p => p.deps.map Prod.fst) := by
  unfold applyBumps
  induction pkgs with
  | nil => rfl
  | cons p ps ih =>
    simp only [List.map_cons, List.flatMap_cons, List.map_map]
    rw [ih]
    congr 1
    apply List.map_congr_left
    intro d _
    cases h : lookupStr target d.1 with
    | none => simp [h]
    | some t => simp [h]

/-- The workspace working set is unchanged by applying the range bumps. -/
theorem wsDepNames_applyBumps (pkgs : List WsPackage)
    (target : List (String × String)) (pat : String) :
    wsDepNames (applyBumps pkgs target) pat = wsDepNames pkgs pat := by
  unfold wsDepNames
  rw [applyBumps_depNames]

/-- The transitive working set only shrinks when entries are removed. -/
theorem phase2Names_subset_of_remove {lf : Lockfile} {ps : List BumpPlan}
    {pat : String} {t1 : List (String × String)} {n : String}
    (h : n ∈ phase2Names ⟨removeEntries lf.entries ps⟩ pat t1) :
    n ∈ phase2Names lf pat t1 := by
  unfold phase2Names at h ⊢
  rw [List.mem_filter] at h ⊢
  refine ⟨?_, h.2⟩
  have h3 := mem_dedup.mp h.1
  obtain ⟨e, he, heq⟩ := List.mem_map.mp h3
  have he2 : e ∈ lf.entries := by
    unfold removeEntries at he
    exact List.mem_of_mem_filter he
  exact mem_dedup.mpr (List.mem_map.mpr ⟨e, he2, heq⟩)

/-- `planOf` fails when the manifest resolution fails. -/
theorem planOf_eq_error0 {opts : BumpOptions} {env : Env} {fs : FsState}
    {e : String} (hm : resolveManifest opts.release env = .error e) :
    planOf opts env fs = .error e := by
  unfold planOf
  simp only [hm]

/-- C6: running the bump twice against the same upstream data is idempotent:
when a first run succeeds, a second run on the files the first run wrote
leaves every file byte-identical, performs no install, succeeds, and logs
"All Backstage packages are up to date!". -/
theorem c6_second_run_up_to_date (opts : BumpOptions) (env : Env)
    (fs : FsState) (h : (runBump opts env fs).err? = none) :
    (runBump opts env (runBump opts env fs).fs).fs = (runBump opts env fs).fs
    ∧ "All Backstage packages are up to date!"
        ∈ (runBump opts env (runBump opts env fs).fs).logs
    ∧ (runBump opts env (runBump opts env fs).fs).installRan = false
    ∧ (runBump opts env (runBump opts env fs).fs).err? = none := by
  cases hplan : planOf opts env fs with
  | error e =>
    exfalso
    unfold runBump at h
    rw [hplan] at h
    simp at h
  | ok pd =>
  cases hm : resolveManifest opts.release env with
  | error e =>
    exfalso
    have h2 := @planOf_eq_error0 opts env fs _ hm
    rw [hplan] at h2
    exact absurd h2 (by simp)
  | ok mani =>
  cases hn1 : resolveNames (resolveTarget mani opts.release env.registry)
      (wsDepNames fs.packages (patOf opts)) with
  | error e =>
    exfalso
    have h2 := planOf_eq_error1 hm hn1
    rw [hplan] at h2
    exact absurd h2 (by simp)
  | ok r1 =>
  obtain ⟨t1, l1⟩ := r1
  cases hn2 : resolveNames (resolveTarget mani opts.release env.registry)
      (phase2Names fs.lockfile (patOf opts) t1) with
  | error e =>
    exfalso
    have h2 := planOf_eq_error2 hm hn1 hn2
    rw [hplan] at h2
    exact absurd h2 (by simp)
  | ok r2 =>
  obtain ⟨t2, l2⟩ := r2
  have hpd := planOf_eq_ok hm hn1 hn2
  rw [hplan] at hpd
  have hpdeq : pd = ⟨mani, t1 ++ t2,
      l1 ++ recheckLogs mani (wsDepNames fs.packages (patOf opts)) ++ l2,
      fs.lockfile.analyze (t1 ++ t2), computeBumps fs.packages (t1 ++ t2)⟩ := by
    have h3 := hpd
    simp only [Except.ok.injEq] at h3
    exact h3
  subst hpdeq
  obtain ⟨ls1, hr1, hl1⟩ := resolveNames_ok_inv hn1
  obtain ⟨ls2, hr2, hl2⟩ := resolveNames_ok_inv hn2
  by_cases hup : ((computeBumps fs.packages (t1 ++ t2)).isEmpty
      && ((fs.lockfile.analyze (t1 ++ t2)).newRanges).isEmpty) = true
  · -- the first run already found everything up to date and wrote nothing
    have hrun1 : runBump opts env fs = ⟨none, fs,
        patLog opts
          :: (l1 ++ recheckLogs mani (wsDepNames fs.packages (patOf opts)) ++ l2)
          ++ ["All Backstage packages are up to date!"], false⟩ := by
      unfold runBump
      rw [hplan]
      dsimp only
      rw [if_pos hup]
    rw [hrun1]
    dsimp only
    rw [hrun1]
    refine ⟨rfl, ?_, rfl, rfl⟩
    simp
  · -- the first run rewrote files; the second run finds them current
    have hupf : ((computeBumps fs.packages (t1 ++ t2)).isEmpty
        && ((fs.lockfile.analyze (t1 ++ t2)).newRanges).isEmpty) = false :=
      Bool.eq_false_iff.mpr hup
    have hfs1 : (runBump opts env fs).fs
        = ⟨⟨removeEntries fs.lockfile.entries
              ((fs.lockfile.analyze (t1 ++ t2)).newRanges)⟩,
           applyBumps fs.packages (t1 ++ t2),
           (backstageStep opts.pattern mani fs.backstageJson).2⟩ := by
      unfold runBump
      rw [hplan]
      dsimp only
      rw [hupf]
      rfl
    -- the second run resolves the same workspace targets
    have hn1b : resolveNames (resolveTarget mani opts.release env.registry)
        (wsDepNames (applyBumps fs.packages (t1 ++ t2)) (patOf opts))
        = .ok (t1, l1) := by
      rw [wsDepNames_applyBumps]
      exact hn1
    -- and a (possibly smaller) transitive set, with no fatal resolution
    have hnf2 : ∀ n ∈ phase2Names fs.lockfile (patOf opts) t1, ∀ msg,
        resolveTarget mani opts.release env.registry n ≠ .error (.fatal msg) :=
      resolveLoop_ok_no_fatal hr2
    have hsub : ∀ n ∈ phase2Names
        (⟨removeEntries fs.lockfile.entries
            ((fs.lockfile.analyze (t1 ++ t2)).newRanges)⟩ : Lockfile)
        (patOf opts) t1, n ∈ phase2Names fs.lockfile (patOf opts) t1 :=
      fun _ hn => phase2Names_subset_of_remove hn
    obtain ⟨⟨t2b, ls2b⟩, hr2b⟩ := @resolveLoop_ok_of_no_fatal
      (resolveTarget mani opts.release env.registry)
      (phase2Names
        (⟨removeEntries fs.lockfile.entries
            ((fs.lockfile.analyze (t1 ++ t2)).newRanges)⟩ : Lockfile)
        (patOf opts) t1)
      (fun n hn msg => hnf2 n (hsub n hn) msg)
    -- every target the second run resolves agrees with the first run's
    have hagree : ∀ n w, lookupStr (t1 ++ t2b) n = some w →
        lookupStr (t1 ++ t2) n = some w := by
      intro n w hw
      cases h1l : lookupStr t1 n with
      | some u =>
        have et' : lookupStr (t1 ++ t2b) n = some u := by
          rw [lookupStr_append, h1l]
        rw [et'] at hw
        rw [lookupStr_append, h1l]
        exact hw
      | none =>
        have et' : lookupStr (t1 ++ t2b) n = lookupStr t2b n := by
          rw [lookupStr_append, h1l]
        rw [et'] at hw
        have hmem := lookupStr_some_mem hw
        have h2b := (resolveLoop_mem_iff hr2b n w).mp hmem
        have hlk := resolveLoop_lookup_some hr2 (hsub n h2b.1) h2b.2
        rw [lookupStr_append, h1l]
        exact hlk
    -- after the rewrite, no manifest range needs bumping
    have hb2 : computeBumps (applyBumps fs.packages (t1 ++ t2)) (t1 ++ t2b)
        = [] := by
      unfold computeBumps applyBumps
      rw [List.flatMap_eq_nil_iff]
      intro p' hp'
      obtain ⟨p, hp, hpe⟩ := List.mem_map.mp hp'
      subst hpe
      rw [List.filterMap_eq_nil_iff]
      intro d' hd'
      dsimp only at hd'
      obtain ⟨d, hd, hde⟩ := List.mem_map.mp hd'
      subst hde
      cases hlt : lookupStr (t1 ++ t2) d.1 with
      | none =>
        have hlt' : lookupStr (t1 ++ t2b) d.1 = none := by
          cases hx : lookupStr (t1 ++ t2b) d.1 with
          | none => rfl
          | some w =>
            have hcontra := hagree d.1 w hx
            rw [hlt] at hcontra
            cases hcontra
        simp only [hlt, hlt']
      | some t =>
        have hlt' : ∀ w, lookupStr (t1 ++ t2b) d.1 = some w → w = t := by
          intro w hx
          have hcontra := hagree d.1 w hx
          rw [hlt] at hcontra
          cases hcontra
          rfl
        simp only [hlt]
        cases hx : lookupStr (t1 ++ t2b) d.1 with
        | none => simp only [hx]
        | some w =>
          have hw := hlt' w hx
          subst hw
          simp only [hx]
          simp
    -- and no lockfile entry remains to unlock
    have hnr2 : ((⟨removeEntries fs.lockfile.entries
          ((fs.lockfile.analyze (t1 ++ t2)).newRanges)⟩ : Lockfile).analyze
          (t1 ++ t2b)).newRanges = [] := by
      rw [analyze_newRanges]
      have hfil : (⟨removeEntries fs.lockfile.entries
          ((fs.lockfile.analyze (t1 ++ t2)).newRanges)⟩ : Lockfile).entries.filter
          (qualSat (t1 ++ t2b)) = [] := by
        rw [List.filter_eq_nil_iff]
        intro e he hq
        have he2 : e ∈ fs.lockfile.entries.filter
            (fun x => ! (((fs.lockfile.analyze (t1 ++ t2)).newRanges).any
              (fun p => planMatches p x))) := he
        have hmemf := List.mem_filter.mp he2
        have hent : e ∈ fs.lockfile.entries := hmemf.1
        have hkeep := hmemf.2
        unfold qualSat at hq
        cases hlk2 : lookupStr (t1 ++ t2b) e.name with
        | none =>
          rw [hlk2] at hq
          simp at hq
        | some t =>
          rw [hlk2] at hq
          have hlk1 : lookupStr (t1 ++ t2) e.name = some t := hagree _ _ hlk2
          have hq1 : qualSat (t1 ++ t2) e = true := by
            unfold qualSat
            rw [hlk1]
            exact hq
          have hmem2 : planOfEntry (t1 ++ t2) e
              ∈ (fs.lockfile.analyze (t1 ++ t2)).newRanges := by
            rw [analyze_newRanges]
            exact List.mem_map.mpr ⟨e, List.mem_filter.mpr ⟨hent, hq1⟩, rfl⟩
          have hany : (((fs.lockfile.analyze (t1 ++ t2)).newRanges).any
              fun p => planMatches p e) = true := by
            rw [List.any_eq_true]
            refine ⟨planOfEntry (t1 ++ t2) e, hmem2, ?_⟩
            unfold planOfEntry toPlan planMatches
            simp
          rw [hany] at hkeep
          simp at hkeep
      rw [hfil]
      rfl
    -- assemble the second run's plan
    have hplan2 := @planOf_eq_ok opts env
      ⟨⟨removeEntries fs.lockfile.entries
          ((fs.lockfile.analyze (t1 ++ t2)).newRanges)⟩,
        applyBumps fs.packages (t1 ++ t2),
        (backstageStep opts.pattern mani fs.backstageJson).2⟩
      _ _ _ _ _ hm hn1b (resolveNames_ok hr2b)
    rw [hfs1]
    constructor
    · unfold runBump
      rw [hplan2]
      dsimp only
      rw [hb2, hnr2]
      rfl
    refine ⟨?_, ?_, ?_⟩
    · unfold runBump
      rw [hplan2]
      dsimp only
      rw [hb2, hnr2]
      simp
    · unfold runBump
      rw [hplan2]
      dsimp only
      rw [hb2, hnr2]
      rfl
    · unfold runBump
      rw [hplan2]
      dsimp only
      rw [hb2, hnr2]
      rfl

/-- Witness for C6 at the first bump test's fixtures: the first run
succeeds, and the second run over the files it wrote changes nothing, skips
the install, and reports everything up to date. -/
theorem c6_second_run_up_to_date_witness :
    ((runBump fixOpts fixEnv fixFs).err? = none)
    ∧ ((runBump fixOpts fixEnv (runBump fixOpts fixEnv fixFs).fs).fs
        = (runBump fixOpts fixEnv fixFs).fs
      ∧ "All Backstage packages are up to date!"
          ∈ (runBump fixOpts fixEnv (runBump fixOpts fixEnv fixFs).fs).logs
      ∧ (runBump fixOpts fixEnv (runBump fixOpts fixEnv fixFs).fs).installRan = false
      ∧ (runBump fixOpts fixEnv (runBump fixOpts fixEnv fixFs).fs).err? = none) :=
  ⟨by decide, c6_second_run_up_to_date fixOpts fixEnv fixFs (by decide)⟩

/-- Grounding: the lockfile parser reproduces the fixture entry list of
`lockfileMock` from the test suite. -/
theorem loadLockfile_fixture : loadLockfile lockfileMock = fixLockfile := by
  set_option maxRecDepth 200000 in decide

/-- Grounding: on the first bump test's inputs the engine reproduces the
exact log transcript, the expected `lockfileMockResult` serialization, the
rewritten manifests, and one install, as asserted by the test suite. -/
theorem runBump_first_test :
    (runBump fixOpts fixEnv fixFs).logs
      = ["Using default pattern glob @backstage/*",
         "Checking for updates of @backstage/core",
         "Checking for updates of @backstage/theme",
         "Checking for updates of @backstage/core-api",
         "Some packages are outdated, updating",
         "unlocking @backstage/core@^1.0.3 ~> 1.0.6",
         "unlocking @backstage/core-api@^1.0.6 ~> 1.0.7",
         "unlocking @backstage/core-api@^1.0.3 ~> 1.0.7",
         "bumping @backstage/core in a to ^1.0.6",
         "bumping @backstage/core in b to ^1.0.6",
         "bumping @backstage/theme in b to ^2.0.0",
         "Running yarn install to install new versions",
         "⚠️  The following packages may have breaking changes:",
         "  @backstage/theme : 1.0.0 ~> 2.0.0",
         "    https://github.com/backstage/backstage/blob/master/packages/theme/CHANGELOG.md",
         "Version bump complete!"]
    ∧ (runBump fixOpts fixEnv fixFs).fs.lockfile.toText = lockfileMockResult
    ∧ (runBump fixOpts fixEnv fixFs).fs.packages
        = [⟨"a", [("@backstage/core", "^1.0.6")]⟩,
           ⟨"b", [("@backstage/core", "^1.0.6"), ("@backstage/theme", "^2.0.0")]⟩]
    ∧ (runBump fixOpts fixEnv fixFs).installRan = true := by
  set_option maxRecDepth 1000000 in decide

end Bump
